import Mathlib

/-!
Verification development for the PyTimer repository.

The development shallowly embeds the Python sources:

* `data.py` — `DataManagerInterface`: a typed record store over SQLite.
  Values are modelled by the inductive `PyVal` (Python floats are modelled
  as exact rationals), SQLite cells by `SqlVal`, and the table by `Store`.
  JSON serialisation of structured values (`json.dumps` / `json.loads`
  with the default separators and `ensure_ascii`) is modelled by the
  executable printer `printVal` and the fuel-based parser `parseVal`.
* `main.py` / `timer_manager.py` — `TimerManager`: the timer lifecycle
  operations over the fixed five-column schema, with `time.time()` passed
  explicitly as a rational `now` parameter.
* the retry loop `_execute_write_with_retry` — modelled over an abstract
  stream of attempt outcomes, with exact rational delays.
* `TimerManagerProxy._notify` of both modules — modelled over callbacks
  that may report an exception.

Python exceptions are modelled by `PyErr` and fallible code returns
`Except PyErr _`.
-/

namespace PyTimer

/-! ### Python-level errors -/

/-- Exceptions raised by the embedded code.  `valueError` models Python
`ValueError` (the spec's `InvalidArgument`/`NotFound`/`InvalidState`),
`typeError` models `TypeError` (the spec's `TypeMismatch` /
`UnsupportedSortType`), `runtimeError` models `RuntimeError`, and
`assertionError` models a failed `assert` statement. -/
inductive PyErr : Type where
  | typeError (msg : String)
  | valueError (msg : String)
  | runtimeError (msg : String)
  | assertionError
  deriving DecidableEq

/-! ### Retry with capped exponential backoff (`data.py`,
`DataManagerInterface._execute_write_with_retry`) -/

/-- Character-wise lowercasing; models `str.lower()` on the ASCII error
messages produced by SQLite. -/
def asciiLower (s : String) : String := String.mk (s.data.map Char.toLower)

/-- Check that `pre` is a prefix of `l` (on character lists). -/
def startsWithL : List Char → List Char → Bool
  | [], _ => true
  | _ :: _, [] => false
  | a :: as, b :: bs => a == b && startsWithL as bs

/-- Check that `needle` occurs as a contiguous substring of `hay`;
models Python's `in` operator on strings. -/
def containsL (needle : List Char) : List Char → Bool
  | [] => startsWithL needle []
  | c :: rest => startsWithL needle (c :: rest) || containsL needle rest

/-- String-level substring test. -/
def containsSub (needle hay : String) : Bool := containsL needle.data hay.data

/-- Transient-failure test of `_execute_write_with_retry`: the lowercased
message contains one of the three substrings. -/
def isTransientWriteMsg (msg : String) : Bool :=
  let m := asciiLower msg
  containsSub "database is locked" m || containsSub "database is busy" m ||
    containsSub "disk i/o error" m

/-- Delay update of the write-retry loop:
`delay = delay * 1.6 if delay < 0.8 else 0.8`. -/
def nextWriteDelay (d : ℚ) : ℚ := if d < 4/5 then d * (8/5) else 4/5

/-- The sequence of sleep delays of the write-retry loop; `writeDelay n` is
the delay slept after the `n`-th failed attempt (0-based).  The initial
value models `delay = 0.05`. -/
def writeDelay : Nat → ℚ
  | 0 => 1/20
  | n + 1 => nextWriteDelay (writeDelay n)

/-- Delay sequence that the claim's words describe: multiplied by 1.6
after each retry and capped at 0.8 seconds.  Stated for refutation only;
the code's sequence is `writeDelay`. -/
def claimWriteDelay : Nat → ℚ
  | 0 => 1/20
  | n + 1 => min (claimWriteDelay n * (8/5)) (4/5)

/-- Trace of one run of the retry loop: the final outcome, the list of
delays slept, and how many times the statement was attempted. -/
structure RetryResult where
  result : Except String Unit
  sleeps : List ℚ
  attempts : Nat

/-- Body of `_execute_write_with_retry`.  `attempt k` is the outcome of
the `k`-th execution of the SQL statement (`.error msg` models
`sqlite3.OperationalError` with message `msg`); `remaining` counts the
loop iterations still allowed (`range(max_tries)`).  When the loop is
exhausted the statement is attempted once more outside the loop and any
failure propagates. -/
def writeRetryGo (attempt : Nat → Except String Unit) :
    Nat → Nat → ℚ → List ℚ → RetryResult
  | k, 0, _, sleeps => { result := attempt k, sleeps := sleeps, attempts := k + 1 }
  | k, r + 1, delay, sleeps =>
    match attempt k with
    | .ok _ => { result := .ok (), sleeps := sleeps, attempts := k + 1 }
    | .error e =>
      if isTransientWriteMsg e then
        writeRetryGo attempt (k + 1) r (nextWriteDelay delay) (sleeps ++ [delay])
      else { result := .error e, sleeps := sleeps, attempts := k + 1 }

/-- Model of `_execute_write_with_retry(sql, params, max_tries)`. -/
def executeWriteWithRetry (attempt : Nat → Except String Unit)
    (maxTries : Nat) : RetryResult :=
  writeRetryGo attempt 0 maxTries (1/20) []

/-! ### Event notification (`TimerManagerProxy._notify`) -/

/-- Observable trace of callback invocations. -/
abbrev NotifyTrace := List Nat

/-- A callback: maps the trace so far to the updated trace and, possibly,
an exception it raised after its side effect. -/
abbrev NotifyCb := NotifyTrace → NotifyTrace × Option String

/-- Model of `main.TimerManagerProxy._notify` (and of the commented-out
copy in `history.py`): each callback runs in registration order and any
exception it raises is swallowed (`except Exception: pass`). -/
def notifyMain (cbs : List NotifyCb) (t : NotifyTrace) : NotifyTrace :=
  match cbs with
  | [] => t
  | cb :: rest => notifyMain rest (cb t).1

/-- Model of `timer_manager.TimerManagerProxy._notify`, where the
`try/except` around the callback call is commented out: the first
exception propagates to the publisher and the remaining callbacks are
skipped. -/
def notifyTM (cbs : List NotifyCb) (t : NotifyTrace) : NotifyTrace × Option String :=
  match cbs with
  | [] => (t, none)
  | cb :: rest =>
    match cb t with
    | (t2, none) => notifyTM rest t2
    | (t2, some e) => (t2, some e)

/-- A callback that appends its index `i` to the trace and then raises
iff `raises` is set. -/
def mkCb (i : Nat) (raises : Bool) : NotifyCb :=
  fun t => (t ++ [i], if raises then some "boom" else none)

/-! ### Python values and schema types (`data.py` module docstring) -/

/-- The supported column types of the record store: `str`, `int`, `bool`,
`float`, `list`, `dict`. -/
inductive PyType : Type where
  | tStr
  | tInt
  | tBool
  | tFloat
  | tList
  | tDict
  deriving DecidableEq

mutual
/-- Python values that can appear as record attribute values.  Python
floats are modelled as exact rationals (every IEEE double is a dyadic
rational); dictionary keys are modelled as strings, matching the JSON
text blobs the store serialises structured values to. -/
inductive PyVal : Type where
  | vStr (s : String)
  | vInt (n : Int)
  | vBool (b : Bool)
  | vFloat (q : ℚ)
  | vNone
  | vList (xs : PyValList)
  | vDict (kvs : PyValDict)
  deriving DecidableEq
/-- A Python list of values. -/
inductive PyValList : Type where
  | nil
  | cons (x : PyVal) (xs : PyValList)
  deriving DecidableEq
/-- A Python dict, as its insertion-ordered key/value sequence. -/
inductive PyValDict : Type where
  | nil
  | cons (k : String) (v : PyVal) (kvs : PyValDict)
  deriving DecidableEq
end

/-- Model of `isinstance(value, expected)` for the schema types.  A
`vBool` is an instance of `tInt` because Python `bool` is a subclass of
`int`; an `int` is not an instance of `bool` or `float`. -/
def isinstanceOf : PyVal → PyType → Bool
  | .vStr _, .tStr => true
  | .vInt _, .tInt => true
  | .vBool _, .tInt => true
  | .vBool _, .tBool => true
  | .vFloat _, .tFloat => true
  | .vList _, .tList => true
  | .vDict _, .tDict => true
  | _, _ => false

/-! ### JSON serialisation (model of `json.dumps` / `json.loads` with the
default separators and `ensure_ascii=True`).  The printer emits exactly
Python's output format for strings (escapes), booleans, null, integers
and containers; for floats it emits the exact decimal expansion of the
value (Python emits the shortest round-tripping decimal, a string with
the same parsed value). -/

/-- The double-quote character. -/
def qChar : Char := Char.ofNat 34

/-- The backslash character. -/
def bsChar : Char := Char.ofNat 92

/-- The opening curly-brace character. -/
def lbChar : Char := Char.ofNat 123

/-- The closing curly-brace character. -/
def rbChar : Char := Char.ofNat 125

/-- Lowercase hexadecimal digit. -/
def hexDigitChar (n : Nat) : Char :=
  if n < 10 then Char.ofNat (48 + n) else Char.ofNat (87 + n)

/-- Four-digit lowercase hex rendering used by `\uXXXX` escapes. -/
def hex4 (n : Nat) : List Char :=
  [hexDigitChar (n / 4096 % 16), hexDigitChar (n / 256 % 16),
    hexDigitChar (n / 16 % 16), hexDigitChar (n % 16)]

/-- JSON escape of one character, following `json.dumps` with
`ensure_ascii`: quote and backslash get a backslash escape, the five
control characters with short escapes use them, printable ASCII is kept
verbatim, and everything else becomes `\uXXXX` (characters above
`0xFFFF`, which Python renders as surrogate pairs, are outside the
modelled fragment). -/
def escChar (c : Char) : List Char :=
  if c = qChar then [bsChar, qChar]
  else if c = bsChar then [bsChar, bsChar]
  else if c = Char.ofNat 8 then [bsChar, 'b']
  else if c = Char.ofNat 9 then [bsChar, 't']
  else if c = Char.ofNat 10 then [bsChar, 'n']
  else if c = Char.ofNat 12 then [bsChar, 'f']
  else if c = Char.ofNat 13 then [bsChar, 'r']
  else if 32 ≤ c.toNat ∧ c.toNat ≤ 126 then [c]
  else bsChar :: 'u' :: hex4 c.toNat

/-- Escape every character of a string body. -/
def escList : List Char → List Char
  | [] => []
  | c :: cs => escChar c ++ escList cs

/-- JSON string literal: quote, escaped body, quote. -/
def printString (s : String) : List Char :=
  qChar :: (escList s.data ++ [qChar])

/-- Little-endian base-10 digits of `n` (empty for 0), with explicit
fuel so the definition is structurally recursive. -/
def digitsRevAux : Nat → Nat → List Nat
  | _, 0 => []
  | 0, _ + 1 => []
  | fuel + 1, n + 1 => ((n + 1) % 10) :: digitsRevAux fuel ((n + 1) / 10)

/-- Little-endian base-10 digits of `n`. -/
def natDigitsRev (n : Nat) : List Nat := digitsRevAux n n

/-- Decimal digit character. -/
def digChar (d : Nat) : Char := Char.ofNat (48 + d)

/-- Decimal rendering of a natural number. -/
def printNat (n : Nat) : List Char :=
  match natDigitsRev n with
  | [] => ['0']
  | ds => (ds.map digChar).reverse

/-- Decimal rendering of an integer. -/
def printInt (i : Int) : List Char :=
  if i < 0 then '-' :: printNat i.natAbs else printNat i.natAbs

/-- Smallest exponent `k ≤ d` with `d ∣ 10 ^ k`, when one exists
(`0` otherwise). -/
def pick10 (d : Nat) : Nat :=
  ((List.range (d + 1)).find? (fun k => 10 ^ k % d == 0)).getD 0

/-- Exact decimal rendering of a rational whose denominator divides a
power of ten, in Python float style: integer part, a dot, and at least
one fractional digit. -/
def printQ (q : ℚ) : List Char :=
  let k := max (pick10 q.den) 1
  let m := q.num.natAbs * 10 ^ k / q.den
  let ds0 := printNat m
  let ds := List.replicate (k + 1 - ds0.length) '0' ++ ds0
  (if q.num < 0 then ['-'] else []) ++
    (ds.take (ds.length - k) ++ '.' :: ds.drop (ds.length - k))

mutual
/-- JSON rendering of a value; models `json.dumps` (default separators
`", "` and `": "`). -/
def printVal : PyVal → List Char
  | .vStr s => printString s
  | .vInt n => printInt n
  | .vBool b => if b then ['t', 'r', 'u', 'e'] else ['f', 'a', 'l', 's', 'e']
  | .vFloat q => printQ q
  | .vNone => ['n', 'u', 'l', 'l']
  | .vList xs => '[' :: (printItems xs ++ [']'])
  | .vDict kvs => lbChar :: (printEntries kvs ++ [rbChar])
/-- Comma-separated list items. -/
def printItems : PyValList → List Char
  | .nil => []
  | .cons x .nil => printVal x
  | .cons x (.cons y ys) =>
    printVal x ++ ',' :: ' ' :: printItems (.cons y ys)
/-- Comma-separated dict entries, each `"key": value`. -/
def printEntries : PyValDict → List Char
  | .nil => []
  | .cons k v .nil => printString k ++ (':' :: ' ' :: printVal v)
  | .cons k v (.cons k2 v2 kvs) =>
    printString k ++ (':' :: ' ' :: printVal v) ++ ',' :: ' ' ::
      printEntries (.cons k2 v2 kvs)
end

/-- Decimal digit test. -/
def isDigitC (c : Char) : Bool := 48 ≤ c.toNat && c.toNat ≤ 57

/-- Hexadecimal digit value of a character. -/
def parseHexDigit (c : Char) : Option Nat :=
  let n := c.toNat
  if 48 ≤ n ∧ n ≤ 57 then some (n - 48)
  else if 97 ≤ n ∧ n ≤ 102 then some (n - 87)
  else if 65 ≤ n ∧ n ≤ 70 then some (n - 55)
  else none

/-- Prepend a decoded character to a string-body parse result. -/
def consCase (c : Char) (r : Option (List Char × List Char)) :
    Option (List Char × List Char) :=
  r.map fun p => (c :: p.1, p.2)

/-- Parse the body of a JSON string literal up to and including the
closing quote, un-escaping as it goes. -/
def parseStrBody : List Char → Option (List Char × List Char)
  | [] => none
  | c :: rest =>
    if c = qChar then some ([], rest)
    else if c = bsChar then
      match rest with
      | [] => none
      | e :: rest2 =>
        if e = qChar then consCase qChar (parseStrBody rest2)
        else if e = bsChar then consCase bsChar (parseStrBody rest2)
        else if e = 'b' then consCase (Char.ofNat 8) (parseStrBody rest2)
        else if e = 't' then consCase (Char.ofNat 9) (parseStrBody rest2)
        else if e = 'n' then consCase (Char.ofNat 10) (parseStrBody rest2)
        else if e = 'f' then consCase (Char.ofNat 12) (parseStrBody rest2)
        else if e = 'r' then consCase (Char.ofNat 13) (parseStrBody rest2)
        else if e = 'u' then
          match rest2 with
          | h1 :: h2 :: h3 :: h4 :: rest3 =>
            match parseHexDigit h1, parseHexDigit h2, parseHexDigit h3,
                parseHexDigit h4 with
            | some a, some b, some c2, some d =>
              consCase (Char.ofNat (a * 4096 + b * 256 + c2 * 16 + d))
                (parseStrBody rest3)
            | _, _, _, _ => none
          | _ => none
        else none
    else consCase c (parseStrBody rest)

/-- Greedily parse decimal digits, returning the accumulated value, the
number of digits consumed, and the rest of the input. -/
def parseDigitsAux : List Char → Nat → Nat → Nat × Nat × List Char
  | [], acc, cnt => (acc, cnt, [])
  | c :: rest, acc, cnt =>
    if isDigitC c then parseDigitsAux rest (acc * 10 + (c.toNat - 48)) (cnt + 1)
    else (acc, cnt, c :: rest)

/-- Apply a parsed sign to an integer magnitude. -/
def intSign (neg : Bool) (n : Nat) : Int := if neg then -(n : Int) else (n : Int)

/-- Apply a parsed sign to a rational magnitude. -/
def ratSign (neg : Bool) (x : ℚ) : ℚ := if neg then -x else x

/-- Continue a number after its integer digits: either a fractional part
follows a dot, or the number is an integer. -/
def numberTail (neg : Bool) (ival : Nat) (rest1 : List Char) :
    Option (PyVal × List Char) :=
  match rest1 with
  | [] => some (.vInt (intSign neg ival), [])
  | d :: rest2 =>
    if d = '.' then
      match rest2 with
      | [] => none
      | e :: _ =>
        if isDigitC e then
          let t2 := parseDigitsAux rest2 0 0
          some (.vFloat (ratSign neg ((ival : ℚ) + (t2.1 : ℚ) / 10 ^ t2.2.1)),
            t2.2.2)
        else none
    else some (.vInt (intSign neg ival), d :: rest2)

/-- Parse an unsigned JSON number (after any leading minus): digits,
optionally followed by a dot and at least one fractional digit. -/
def parseUnsignedNumber (neg : Bool) (l : List Char) :
    Option (PyVal × List Char) :=
  match l with
  | [] => none
  | c :: _ =>
    if isDigitC c then
      let t := parseDigitsAux l 0 0
      numberTail neg t.1 t.2.2
    else none

/-- Parse a JSON number with optional leading minus. -/
def parseNumber (l : List Char) : Option (PyVal × List Char) :=
  match l with
  | [] => none
  | c :: rest =>
    if c = '-' then parseUnsignedNumber true rest
    else parseUnsignedNumber false (c :: rest)

mutual
/-- Fuel-based recursive-descent parser for the fragment of JSON the
printer emits; models `json.loads` on stored blobs. -/
def parseVal : Nat → List Char → Option (PyVal × List Char)
  | 0, _ => none
  | fuel + 1, l =>
    match l with
    | [] => none
    | c :: rest =>
      if c = qChar then
        (parseStrBody rest).map fun p => (.vStr (String.mk p.1), p.2)
      else if c = '[' then
        match rest with
        | [] => none
        | r :: rest2 =>
          if r = ']' then some (.vList .nil, rest2)
          else (parseItems fuel (r :: rest2)).map fun p => (.vList p.1, p.2)
      else if c = lbChar then
        match rest with
        | [] => none
        | r :: rest2 =>
          if r = rbChar then some (.vDict .nil, rest2)
          else (parseEntries fuel (r :: rest2)).map fun p => (.vDict p.1, p.2)
      else if c = 't' then
        match rest with
        | r1 :: r2 :: r3 :: rest2 =>
          if r1 = 'r' then if r2 = 'u' then if r3 = 'e' then
            some (.vBool true, rest2) else none else none else none
        | _ => none
      else if c = 'f' then
        match rest with
        | r1 :: r2 :: r3 :: r4 :: rest2 =>
          if r1 = 'a' then if r2 = 'l' then if r3 = 's' then if r4 = 'e' then
            some (.vBool false, rest2) else none else none else none else none
        | _ => none
      else if c = 'n' then
        match rest with
        | r1 :: r2 :: r3 :: rest2 =>
          if r1 = 'u' then if r2 = 'l' then if r3 = 'l' then
            some (.vNone, rest2) else none else none else none
        | _ => none
      else parseNumber (c :: rest)
/-- Parse the non-empty items of a JSON array up to and including the
closing bracket. -/
def parseItems : Nat → List Char → Option (PyValList × List Char)
  | 0, _ => none
  | fuel + 1, l =>
    match parseVal fuel l with
    | none => none
    | some (v, rest) =>
      match rest with
      | [] => none
      | r :: rest2 =>
        if r = ']' then some (.cons v .nil, rest2)
        else if r = ',' then
          match rest2 with
          | [] => none
          | sp :: rest3 =>
            if sp = ' ' then
              match parseItems fuel rest3 with
              | none => none
              | some (vs, rest4) => some (.cons v vs, rest4)
            else none
        else none
/-- Parse the non-empty entries of a JSON object up to and including the
closing brace. -/
def parseEntries : Nat → List Char → Option (PyValDict × List Char)
  | 0, _ => none
  | fuel + 1, l =>
    match l with
    | [] => none
    | c :: rest =>
      if c = qChar then
        match parseStrBody rest with
        | none => none
        | some (k, rest1) =>
          match rest1 with
          | [] => none
          | c1 :: rest1b =>
            if c1 = ':' then
              match rest1b with
              | [] => none
              | sp :: rest2 =>
                if sp = ' ' then
                  match parseVal fuel rest2 with
                  | none => none
                  | some (v, rest3) =>
                    match rest3 with
                    | [] => none
                    | r :: rest4 =>
                      if r = rbChar then some (.cons (String.mk k) v .nil, rest4)
                      else if r = ',' then
                        match rest4 with
                        | [] => none
                        | sp2 :: rest5 =>
                          if sp2 = ' ' then
                            match parseEntries fuel rest5 with
                            | none => none
                            | some (kvs, rest6) =>
                              some (.cons (String.mk k) v kvs, rest6)
                          else none
                      else none
                else none
            else none
      else none
end

mutual
/-- Node-count measure of a value, used as parser fuel. -/
def szV : PyVal → Nat
  | .vList xs => szL xs + 1
  | .vDict kvs => szD kvs + 1
  | _ => 1
/-- Node-count measure of list items. -/
def szL : PyValList → Nat
  | .nil => 0
  | .cons x xs => szV x + szL xs + 1
/-- Node-count measure of dict entries. -/
def szD : PyValDict → Nat
  | .nil => 0
  | .cons _ v kvs => szV v + szD kvs + 1
end

/-- Strings in the modelled JSON fragment: all characters below
`0x10000` (Python escapes larger ones as surrogate pairs, which the
model leaves out). -/
def strOkB (s : String) : Bool := s.data.all fun c => c.toNat < 65536

/-- Membership of a key in a dict. -/
def containsKeyD (k : String) : PyValDict → Bool
  | .nil => false
  | .cons k2 _ kvs => k == k2 || containsKeyD k kvs

mutual
/-- JSON-serialisable values of the modelled fragment: strings within
the basic plane, floats with a terminating decimal expansion (every
Python float qualifies), and containers of such values with distinct
string keys. -/
def jsonableV : PyVal → Bool
  | .vStr s => strOkB s
  | .vInt _ => true
  | .vBool _ => true
  | .vNone => true
  | .vFloat q => 10 ^ q.den % q.den == 0
  | .vList xs => jsonableL xs
  | .vDict kvs => jsonableD kvs
/-- Serialisability for list items. -/
def jsonableL : PyValList → Bool
  | .nil => true
  | .cons x xs => jsonableV x && jsonableL xs
/-- Serialisability for dict entries. -/
def jsonableD : PyValDict → Bool
  | .nil => true
  | .cons k v kvs =>
    strOkB k && !containsKeyD k kvs && jsonableV v && jsonableD kvs
end

/-- Model of `json.dumps(v)`. -/
def dumps (v : PyVal) : String := String.mk (printVal v)

/-- Model of `json.loads(s)`: parse and require full consumption. -/
def loads (s : String) : Option PyVal :=
  match parseVal (s.length + 1) s.data with
  | some (v, []) => some v
  | _ => none

/-- Input whose head cannot continue a digit run. -/
def noDigitHead : List Char → Bool
  | [] => true
  | c :: _ => !isDigitC c

/-- Input whose head cannot continue a number (neither digit nor dot). -/
def numStopB : List Char → Bool
  | [] => true
  | c :: _ => !isDigitC c && !(c == '.')


/-! ### Definitions used by the round-trip proofs -/

/-- Value of a little-endian digit list. -/
def valLE (ds : List Nat) : Nat := ds.foldr (fun d acc => d + 10 * acc) 0

/-- Most-significant-first accumulator fold used by the digit parser. -/
def msbFold (l : List Char) (acc : Nat) : Nat :=
  l.foldl (fun a c => a * 10 + (c.toNat - 48)) acc

/-! ### SQLite cells and the record store (`data.py`,
`DataManagerInterface`) -/

/-- A stored SQLite cell, by storage class. -/
inductive SqlVal : Type where
  | sNull
  | sInt (n : Int)
  | sReal (q : ℚ)
  | sText (s : String)
  deriving DecidableEq

/-- A schema: the ordered mapping of column names to Python types fixed
at construction time (`column_type_dict`). -/
abbrev Schema := List (String × PyType)

/-- The state of one `DataManagerInterface` table: its schema, the next
`AUTOINCREMENT` rowid, and the rows in insertion order. -/
structure Store where
  schema : Schema
  nextId : Int
  rows : List (Int × List SqlVal)
  deriving DecidableEq

/-- A freshly created table. -/
def mkStore (schema : Schema) : Store :=
  { schema := schema, nextId := 1, rows := [] }

/-- Model of `_validate_attr`: unknown attributes raise `ValueError`. -/
def validateAttr (st : Store) (attr : String) : Except PyErr PyType :=
  match List.lookup attr st.schema with
  | some ty => .ok ty
  | none => .error (.valueError ("Unknown attribute " ++ attr))

/-- Python `int(value)` applied to the boolean accepted by the `bool`
branch of `_encode_value`. -/
def pyIntOfBool : PyVal → PyVal
  | .vBool b => .vInt (if b then 1 else 0)
  | v => v

/-- Model of `_encode_value`: validate, `isinstance` check (raising
`TypeError`, the spec TypeMismatch), then encode booleans as 0/1 and
structured values as their JSON text. -/
def encodeValue (st : Store) (attr : String) (v : PyVal) :
    Except PyErr PyVal := do
  let expected ← validateAttr st attr
  if isinstanceOf v expected = false then
    throw (.typeError ("Attribute " ++ attr ++ " expects another type"))
  else if expected = .tBool then
    pure (pyIntOfBool v)
  else if expected = .tList ∨ expected = .tDict then
    pure (.vStr (dumps v))
  else
    pure v

/-- How the sqlite3 driver converts a bound Python parameter into a
stored cell (bool is adapted to 0/1 because it is an `int` subclass);
lists and dicts are not bindable and raise. -/
def sqliteBind : PyVal → Except PyErr SqlVal
  | .vStr s => .ok (.sText s)
  | .vInt n => .ok (.sInt n)
  | .vBool b => .ok (.sInt (if b then 1 else 0))
  | .vFloat q => .ok (.sReal q)
  | .vNone => .ok .sNull
  | _ => .error (.valueError "unsupported bind type")

/-- How the sqlite3 driver presents a stored cell to Python. -/
def sqliteRead : SqlVal → PyVal
  | .sNull => .vNone
  | .sInt n => .vInt n
  | .sReal q => .vFloat q
  | .sText s => .vStr s

/-- Python `bool(value)` on the values that can come out of a cell. -/
def pyBool : PyVal → PyVal
  | .vInt n => .vBool (n ≠ 0)
  | .vFloat q => .vBool (q ≠ 0)
  | .vStr s => .vBool (s ≠ "")
  | .vNone => .vBool false
  | _ => .vBool true

/-- Model of `_decode_value` applied to a cell read back from the
database: booleans are rebuilt from 0/1, structured values are parsed
from their JSON text (`None` maps to `None`), other values pass
through. -/
def decodeValue (st : Store) (attr : String) (cell : SqlVal) :
    Except PyErr PyVal := do
  let expected ← validateAttr st attr
  let v := sqliteRead cell
  if expected = .tBool then
    pure (pyBool v)
  else if expected = .tList ∨ expected = .tDict then
    match v with
    | .vNone => pure .vNone
    | .vStr s =>
      match loads s with
      | some w => pure w
      | none => throw (.valueError "invalid json")
    | _ => throw (.typeError "the JSON object must be str")
  else
    pure v

/-- Position of a column in the schema (and in each row's cell list). -/
def attrIdx (schema : Schema) (attr : String) : Nat :=
  schema.findIdx (fun p => p.1 == attr)

/-- Row lookup by id (`WHERE id = ?`). -/
def findRow (st : Store) (id : Int) : Option (Int × List SqlVal) :=
  st.rows.find? (fun r => r.1 == id)

/-- Model of `get_attr`: validate the attribute, select the row, decode
the cell; a missing row raises `ValueError` (the spec NotFound). -/
def getAttr (st : Store) (id : Int) (attr : String) : Except PyErr PyVal := do
  let _ ← validateAttr st attr
  match findRow st id with
  | none => throw (.valueError ("No item with id " ++ toString id))
  | some r => decodeValue st attr (r.2.getD (attrIdx st.schema attr) .sNull)

/-- Model of `set_attr`: encode (raising TypeMismatch for a wrong runtime
type), update the row, and raise `ValueError` when no row matched. -/
def setAttr (st : Store) (id : Int) (attr : String) (v : PyVal) :
    Except PyErr Store := do
  let encoded ← encodeValue st attr v
  let cell ← sqliteBind encoded
  match findRow st id with
  | none => throw (.valueError ("No item with id " ++ toString id))
  | some _ =>
    pure { st with rows := st.rows.map fun r =>
      if r.1 == id then (r.1, r.2.set (attrIdx st.schema attr) cell) else r }

/-- Key-set equality check of `add_item`: `set(attr_dict) ==
set(self._column_types)`. -/
def keysMatch (st : Store) (rec : List (String × PyVal)) : Bool :=
  st.schema.all (fun p => rec.any fun q => q.1 == p.1) &&
    rec.all (fun q => st.schema.any fun p => p.1 == q.1)

/-- Model of `add_item`: reject a wrong key set (the spec SchemaMismatch),
encode each column in schema order, insert a fresh row and return the new
auto-assigned id. -/
def addItem (st : Store) (rec : List (String × PyVal)) :
    Except PyErr (Store × Int) := do
  if keysMatch st rec = false then
    throw (.valueError "Invalid attributes")
  else
    let cells ← st.schema.mapM fun p => do
      let encoded ← encodeValue st p.1 ((rec.lookup p.1).getD .vNone)
      sqliteBind encoded
    let st2 : Store :=
      { schema := st.schema, nextId := st.nextId + 1,
        rows := st.rows ++ [(st.nextId, cells)] }
    pure (st2, st.nextId)

/-- Model of `rm_item`: delete the row, raising `ValueError` when no row
matched (`rowcount == 0`). -/
def rmItem (st : Store) (id : Int) : Except PyErr Store :=
  match findRow st id with
  | none => .error (.valueError ("No item with id " ++ toString id))
  | some _ => .ok { st with rows := st.rows.filter fun r => !(r.1 == id) }

/-- Sort key of `top_n_by_attr`: the numeric value for INTEGER/REAL
columns, `LENGTH(attr)` for TEXT columns (strings and JSON blobs). -/
def sortKeyQ (numeric : Bool) (cell : SqlVal) : ℚ :=
  if numeric then
    match cell with
    | .sInt n => (n : ℚ)
    | .sReal q => q
    | _ => 0
  else
    match cell with
    | .sText s => (s.length : ℚ)
    | _ => 0

/-- Encode the equality filter of `top_n_by_attr` (and `find_item`):
validate each key and encode each value as stored. -/
def encodeFilter (st : Store) (filt : List (String × PyVal)) :
    Except PyErr (List (Nat × SqlVal)) :=
  filt.mapM fun kv => do
    let _ ← validateAttr st kv.1
    let encoded ← encodeValue st kv.1 kv.2
    let cell ← sqliteBind encoded
    pure (attrIdx st.schema kv.1, cell)

/-- Row satisfies every encoded equality constraint. -/
def rowMatches (efs : List (Nat × SqlVal)) (r : Int × List SqlVal) : Bool :=
  efs.all fun f => r.2.getD f.1 .sNull == f.2

/-- Row comparison used to model `ORDER BY key DESC/ASC` (stable sort on
the scan order). -/
def rowLE (numeric : Bool) (idx : Nat) (largest : Bool)
    (a b : Int × List SqlVal) : Bool :=
  if largest then
    decide (sortKeyQ numeric (b.2.getD idx .sNull) ≤
      sortKeyQ numeric (a.2.getD idx .sNull))
  else
    decide (sortKeyQ numeric (a.2.getD idx .sNull) ≤
      sortKeyQ numeric (b.2.getD idx .sNull))

/-- Model of `top_n_by_attr`: boolean sort columns raise `TypeError`
(the spec UnsupportedSortType); otherwise filter, order by the numeric
value or stored length, and apply `LIMIT n` (a negative SQLite LIMIT
means no limit). -/
def topNByAttr (st : Store) (attr : String) (n : Int) (largest : Bool)
    (filt : List (String × PyVal)) : Except PyErr (List Int) := do
  let expected ← validateAttr st attr
  let numeric ←
    if expected = .tInt ∨ expected = .tFloat then pure true
    else if expected = .tStr ∨ expected = .tList ∨ expected = .tDict then
      pure false
    else
      throw (.typeError ("Unsupported type for sorting: " ++
        "must be int, float, str, list, or dict."))
  let efs ← encodeFilter st filt
  let idx := attrIdx st.schema attr
  let sorted := (st.rows.filter (rowMatches efs)).mergeSort
    (rowLE numeric idx largest)
  let limited := if n < 0 then sorted else sorted.take n.toNat
  pure (limited.map fun r => r.1)

/-- Python `==` restricted to the comparisons arising here: syntactic
equality or cross-type numeric equality (`True == 1`, `1 == 1.0`).  Sound
for Python equality: whenever `pyEq a b` holds, Python's `a == b` holds. -/
def numQ : PyVal → Option ℚ
  | .vInt n => some (n : ℚ)
  | .vBool b => some (if b then 1 else 0)
  | .vFloat q => some q
  | _ => none

/-- Equality test combining structural and numeric equality. -/
def pyEq (a b : PyVal) : Bool :=
  a == b ||
    (match numQ a, numQ b with
     | some x, some y => x == y
     | _, _ => false)

/-- Generic store well-formedness: distinct column names, and every row
id positive, distinct, and below the auto-increment counter. -/
def wfStore (st : Store) : Bool :=
  decide ((st.schema.map Prod.fst).Nodup) &&
    st.rows.all (fun r => decide (0 < r.1) && decide (r.1 < st.nextId)) &&
    decide ((st.rows.map Prod.fst).Nodup)

/-! ### The timer layer (`main.py` / `timer_manager.py`,
`TimerManager`).  `time.time()` is passed explicitly as `now`. -/

/-- Status constant `RUNNING`. -/
def RUNNING : String := "running"

/-- Status constant `PAUSED`. -/
def PAUSED : String := "paused"

/-- Status constant `FINISHED`. -/
def FINISHED : String := "finished"

/-- Sentinel for unset timestamps (`NOT_SET = -1.0`). -/
def NOT_SET : ℚ := -1

/-- The fixed timer schema, in the insertion order of
`column_type_dict`. -/
def timerSchema : Schema :=
  [("duration", .tFloat), ("start_time", .tFloat), ("end_time", .tFloat),
    ("status", .tStr), ("name", .tStr)]

/-- Extract the numeric value of a Python number, as float arithmetic
does; a non-number raises `TypeError`. -/
def asFloat : PyVal → Except PyErr ℚ
  | .vFloat q => .ok q
  | .vInt n => .ok (n : ℚ)
  | .vBool b => .ok (if b then 1 else 0)
  | _ => .error (.typeError "unsupported operand type")

/-- Model of `is_timer_exists`: a non-positive id raises `ValueError`
(the non-`int` half of the Python guard is unrepresentable in this typed
embedding); otherwise probe `get_attr(id, "name")`, catching only
`ValueError`. -/
def isTimerExists (st : Store) (id : Int) : Except PyErr Bool :=
  if id ≤ 0 then .error (.valueError "Timer ID must be a positive integer.")
  else
    match getAttr st id "name" with
    | .ok _ => .ok true
    | .error (.valueError _) => .ok false
    | .error e => .error e

/-- Model of `is_timer_running`: requires existence, checks the RUNNING
arithmetic invariant (raising `RuntimeError` on mismatch), and compares
the status string. -/
def isTimerRunning (st : Store) (id : Int) : Except PyErr Bool := do
  let ex ← isTimerExists st id
  if ex = false then
    throw (.valueError "Timer with this ID does not exist.")
  else
    let status ← getAttr st id "status"
    let dur ← getAttr st id "duration" >>= asFloat
    let start ← getAttr st id "start_time" >>= asFloat
    let endT ← getAttr st id "end_time" >>= asFloat
    if endT - dur ≠ start then
      throw (.runtimeError
        "The timer start and end times do not match the duration.")
    else
      pure (status == .vStr RUNNING)

/-- Model of `is_timer_paused`: requires existence, then asserts the
PAUSED invariants (status PAUSED, duration non-negative, both timestamps
NOT_SET); a violated assert raises `AssertionError`. -/
def isTimerPaused (st : Store) (id : Int) : Except PyErr Bool := do
  let ex ← isTimerExists st id
  if ex = false then
    throw (.valueError "Timer with this ID does not exist.")
  else
    let status ← getAttr st id "status"
    let dur ← getAttr st id "duration"
    let start ← getAttr st id "start_time"
    let endT ← getAttr st id "end_time"
    if (status == .vStr PAUSED) = false then throw .assertionError
    else
      let durQ ← asFloat dur
      if durQ < 0 then throw .assertionError
      else if pyEq start (.vFloat NOT_SET) = false then throw .assertionError
      else if pyEq endT (.vFloat NOT_SET) = false then throw .assertionError
      else pure true

/-- Model of `create_timer`: validates duration and name (raising
`ValueError`, the spec InvalidArgument), then inserts a RUNNING record
with `start_time = now` and `end_time = now + duration`. -/
def createTimer (st : Store) (name : String) (dur : Int) (now : ℚ) :
    Except PyErr (Store × Int) :=
  if dur ≤ 0 then .error (.valueError "Duration must be a positive integer.")
  else if name = "" then .error (.valueError "Name cannot be empty.")
  else if 100 < name.length then
    .error (.valueError "Name cannot exceed 100 characters.")
  else
    addItem st [("name", .vStr name), ("duration", .vFloat (dur : ℚ)),
      ("start_time", .vFloat now), ("end_time", .vFloat (now + (dur : ℚ))),
      ("status", .vStr RUNNING)]

/-- Model of `rm_timer`: `assert is_timer_exists(id)` then delete. -/
def rmTimer (st : Store) (id : Int) : Except PyErr Store := do
  let ex ← isTimerExists st id
  if ex = false then throw .assertionError
  else rmItem st id

/-- Model of `pause_timer`: asserts existence and RUNNING, then stores the
remaining seconds as the new duration and parks both timestamps at
NOT_SET with status PAUSED. -/
def pauseTimer (st : Store) (id : Int) (now : ℚ) : Except PyErr Store := do
  let ex ← isTimerExists st id
  if ex = false then throw .assertionError
  else
    let run ← isTimerRunning st id
    if run = false then throw .assertionError
    else
      let endT ← getAttr st id "end_time" >>= asFloat
      let st1 ← setAttr st id "duration" (.vFloat (endT - now))
      let st2 ← setAttr st1 id "start_time" (.vFloat NOT_SET)
      let st3 ← setAttr st2 id "end_time" (.vFloat NOT_SET)
      setAttr st3 id "status" (.vStr PAUSED)

/-- Model of `resume_timer`: asserts existence and the paused-state check
`is_timer_paused` (whose own `assert duration >= 0` fires before the
negative-duration `ValueError` below can be reached), then restarts the
timer from `now`. -/
def resumeTimer (st : Store) (id : Int) (now : ℚ) : Except PyErr Store := do
  let ex ← isTimerExists st id
  if ex = false then throw .assertionError
  else
    let p ← isTimerPaused st id
    if p = false then throw .assertionError
    else
      let dur ← getAttr st id "duration" >>= asFloat
      if dur < 0 then
        throw (.valueError "Cannot resume a timer with negative duration.")
      else
        let st1 ← setAttr st id "start_time" (.vFloat now)
        let st2 ← setAttr st1 id "end_time" (.vFloat (now + dur))
        setAttr st2 id "status" (.vStr RUNNING)

/-- Model of `mark_timer_finished`: returns unchanged when the timer is
absent or already FINISHED, otherwise only the status cell is updated. -/
def markTimerFinished (st : Store) (id : Int) : Except PyErr Store := do
  let ex ← isTimerExists st id
  if ex = false then pure st
  else
    let status ← getAttr st id "status"
    if status == .vStr FINISHED then pure st
    else setAttr st id "status" (.vStr FINISHED)

/-- Model of `get_timer_info`: raises for a missing timer, otherwise
returns the id and the five attributes. -/
def getTimerInfo (st : Store) (id : Int) :
    Except PyErr (List (String × PyVal)) := do
  let ex ← isTimerExists st id
  if ex = false then
    throw (.valueError "Timer with this ID does not exist.")
  else
    let nm ← getAttr st id "name"
    let dur ← getAttr st id "duration"
    let start ← getAttr st id "start_time"
    let endT ← getAttr st id "end_time"
    let status ← getAttr st id "status"
    pure [("id", .vInt id), ("name", nm), ("duration", dur),
      ("start_time", start), ("end_time", endT), ("status", status)]

/-- Shape of a well-formed timer row's cells, in schema order. -/
def timerCellsShape (cells : List SqlVal) : Bool :=
  match cells with
  | [.sReal _, .sReal _, .sReal _, .sText _, .sText _] => true
  | _ => false

/-- Well-formedness of a timer store: the timer schema, generic store
well-formedness, and REAL/TEXT cells as create/pause/resume write them. -/
def wfTimer (st : Store) : Bool :=
  (st.schema == timerSchema) && wfStore st &&
    st.rows.all fun r => timerCellsShape r.2

/-- Convenience constructor for a timer row's cells, in schema order
(duration, start_time, end_time, status, name). -/
def timerCells (dur start endT : ℚ) (status name : String) : List SqlVal :=
  [.sReal dur, .sReal start, .sReal endT, .sText status, .sText name]

/-- The store with row `id`'s cell at position `i` replaced; the shape
every single-attribute `UPDATE` produces. -/
def updCell (st : Store) (id : Int) (i : Nat) (cell : SqlVal) : Store :=
  { st with rows := st.rows.map fun r =>
      if r.1 == id then (r.1, r.2.set i cell) else r }

/-- The store produced by a successful `pause_timer(id)` at instant
`now` on a timer whose end time was `e`: duration becomes the remaining
`e - now`, both timestamps become NOT_SET, status becomes PAUSED, and
nothing else changes. -/
def pausedStore (st : Store) (id : Int) (e now : ℚ) : Store :=
  updCell (updCell (updCell (updCell st id 0 (.sReal (e - now))) id 1
    (.sReal NOT_SET)) id 2 (.sReal NOT_SET)) id 3 (.sText PAUSED)

/-- The store produced by a successful `resume_timer(id)` at instant
`now` on a paused timer of remaining duration `d`. -/
def resumedStore (st : Store) (id : Int) (d now : ℚ) : Store :=
  updCell (updCell (updCell st id 1 (.sReal now)) id 2 (.sReal (now + d)))
    id 3 (.sText RUNNING)

/-- The store produced by `mark_timer_finished(id)` on a non-finished
timer: only the status cell changes. -/
def finishedStore (st : Store) (id : Int) : Store :=
  updCell st id 3 (.sText FINISHED)

/-- The store produced by a successful `create_timer(name, dur)` at
instant `now`: one fresh row, everything else unchanged. -/
def createdStore (st : Store) (name : String) (dur : Int) (now : ℚ) : Store :=
  { schema := st.schema, nextId := st.nextId + 1,
    rows := st.rows ++
      [(st.nextId, timerCells (dur : ℚ) now (now + (dur : ℚ)) RUNNING name)] }

/-- Concrete one-timer store with a RUNNING timer (id 1, duration 5,
started at 100), used to witness the timer-layer theorems. -/
def demoRun : Store :=
  { schema := timerSchema, nextId := 2,
    rows := [(1, timerCells 5 100 105 RUNNING "t1")] }

/-- Concrete one-timer store with a PAUSED timer of remaining duration 3. -/
def demoPaused : Store :=
  { schema := timerSchema, nextId := 2,
    rows := [(1, timerCells 3 NOT_SET NOT_SET PAUSED "t1")] }

/-- Concrete one-timer store with an overdue PAUSED timer: `pause` ran
after the deadline, leaving a negative remaining duration. -/
def demoOverdue : Store :=
  { schema := timerSchema, nextId := 2,
    rows := [(1, timerCells (-2) NOT_SET NOT_SET PAUSED "t1")] }

/-- Concrete one-timer store whose timer is already FINISHED. -/
def demoDone : Store :=
  { schema := timerSchema, nextId := 2,
    rows := [(1, timerCells 5 100 105 FINISHED "t1")] }

/-- A two-column schema declaring an INTEGER and a TEXT column, used to
witness the bool-for-int claim. -/
def boolSchema : Schema := [("flag", .tInt), ("note", .tStr)]

/-- Concrete store over `boolSchema` with one row. -/
def demoFlagStore : Store :=
  { schema := boolSchema, nextId := 2, rows := [(1, [.sInt 0, .sText "x"])] }

/-- A schema with one column of every supported type, used to witness
the insert/get round-trip claim. -/
def richSchema : Schema :=
  [("s", .tStr), ("n", .tInt), ("b", .tBool), ("x", .tFloat),
   ("l", .tList), ("d", .tDict)]

/-- A record over `richSchema` exercising a boolean stored in the int
column, a float, a list and a dict value. -/
def richRec : List (String × PyVal) :=
  [("s", .vStr "hello"), ("n", .vBool true), ("b", .vBool false),
   ("x", .vFloat (3/2)),
   ("l", .vList (.cons (.vInt 1) (.cons (.vStr "a") .nil))),
   ("d", .vDict (.cons "k" (.vBool true) .nil))]

/-- Concrete three-row store used to witness the top-N claim. -/
def demoTopN : Store :=
  { schema := [("p", .tInt), ("s", .tStr)], nextId := 4,
    rows := [(1, [.sInt 5, .sText "aa"]), (2, [.sInt 9, .sText "b"]),
             (3, [.sInt 7, .sText "cccc"])] }

/-! ### Lemmas about the retry loop -/

lemma writeRetryGo_attempts_le (attempt : Nat → Except String Unit) :
    ∀ (r k : Nat) (d : ℚ) (s : List ℚ),
      (writeRetryGo attempt k r d s).attempts ≤ k + r + 1 := by
  intro r
  induction r with
  | zero => intro k d s; simp [writeRetryGo]
  | succ r ih =>
    intro k d s
    simp only [writeRetryGo]
    cases attempt k with
    | ok u => dsimp only; omega
    | error e =>
      dsimp only
      by_cases h : isTransientWriteMsg e = true
      · rw [if_pos h]
        have := ih (k + 1) (nextWriteDelay d) (s ++ [d])
        omega
      · rw [if_neg h]; dsimp only; omega

lemma writeRetryGo_allTransient (attempt : Nat → Except String Unit)
    (h : ∀ k, ∃ m, attempt k = .error m ∧ isTransientWriteMsg m = true) :
    ∀ (r k j : Nat) (s : List ℚ),
      writeRetryGo attempt k r (writeDelay j) s =
        { result := attempt (k + r),
          sleeps := s ++ (List.range r).map (fun i => writeDelay (j + i)),
          attempts := k + r + 1 } := by
  intro r
  induction r with
  | zero => intro k j s; simp [writeRetryGo]
  | succ r ih =>
    intro k j s
    obtain ⟨m, hm, htr⟩ := h k
    simp only [writeRetryGo, hm, htr, if_true]
    have hnext : nextWriteDelay (writeDelay j) = writeDelay (j + 1) := rfl
    rw [hnext, ih (k + 1) (j + 1) (s ++ [writeDelay j])]
    have harith : k + 1 + r = k + (r + 1) := by omega
    have hrange : (List.range (r + 1)).map (fun i => writeDelay (j + i)) =
        writeDelay j :: (List.range r).map (fun i => writeDelay (j + 1 + i)) := by
      rw [List.range_succ_eq_map]
      simp only [List.map_cons, List.map_map, Nat.add_zero]
      congr 1
      apply List.map_congr_left
      intro i _
      simp only [Function.comp_apply]
      congr 1
      omega
    rw [harith, hrange]
    simp

lemma writeDelay_six : writeDelay 6 = 65536/78125 := by
  simp only [writeDelay, nextWriteDelay]
  norm_num

lemma writeDelay_of_seven_le : ∀ n, 7 ≤ n → writeDelay n = 4/5 := by
  have h7 : writeDelay 7 = 4/5 := by
    show nextWriteDelay (writeDelay 6) = 4/5
    rw [writeDelay_six]
    simp only [nextWriteDelay]
    norm_num
  intro n hn
  induction n with
  | zero => omega
  | succ n ih =>
    rcases Nat.lt_or_ge n 7 with hlt | hge
    · have : n = 6 := by omega
      subst this; exact h7
    · have hd : writeDelay n = 4/5 := ih hge
      show nextWriteDelay (writeDelay n) = 4/5
      rw [hd]
      simp [nextWriteDelay]

lemma writeDelay_le_bound : ∀ n, writeDelay n ≤ 65536/78125 := by
  intro n
  rcases Nat.lt_or_ge n 7 with hlt | hge
  · interval_cases n <;> · simp only [writeDelay, nextWriteDelay]; norm_num
  · rw [writeDelay_of_seven_le n hge]; norm_num

/-- C2 (amended): on an all-transient failure stream the write-retry loop
sleeps exactly the delays `writeDelay 0, writeDelay 1, ...`, where the delay
starts at 0.05 s and is multiplied by 1.6 after each retry while it is
below 0.8 s and is pinned to exactly 0.8 s once it has reached or exceeded
0.8 s; consequently every delay is at most 0.8388608 s (the single
overshoot, reached after the sixth retry) and every delay from the eighth
on equals 0.8 s.  The loop makes at most `maxTries` retried attempts plus
one final attempt, whose failure propagates to the caller, and always
terminates. -/
theorem c2_write_retry_backoff (attempt : Nat → Except String Unit) (maxTries : Nat) :
    (executeWriteWithRetry attempt maxTries).attempts ≤ maxTries + 1 ∧
    writeDelay 0 = 1/20 ∧
    (∀ n, writeDelay (n + 1) =
      if writeDelay n < 4/5 then writeDelay n * (8/5) else 4/5) ∧
    (∀ n, writeDelay n ≤ 65536/78125) ∧
    (∀ n, 7 ≤ n → writeDelay n = 4/5) ∧
    ((∀ k, ∃ m, attempt k = .error m ∧ isTransientWriteMsg m = true) →
      (executeWriteWithRetry attempt maxTries).sleeps =
          (List.range maxTries).map writeDelay ∧
        (executeWriteWithRetry attempt maxTries).result = attempt maxTries ∧
        (executeWriteWithRetry attempt maxTries).attempts = maxTries + 1) := by
  refine ⟨?_, rfl, fun n => rfl, writeDelay_le_bound, writeDelay_of_seven_le, ?_⟩
  · have := writeRetryGo_attempts_le attempt maxTries 0 (1/20) []
    simpa [executeWriteWithRetry] using this
  · intro h
    have h0 : (1 : ℚ)/20 = writeDelay 0 := rfl
    have := writeRetryGo_allTransient attempt h maxTries 0 0 []
    rw [executeWriteWithRetry, h0, this]
    simp

/-- C2 witness: concrete all-transient run with a retry budget of 3. -/
theorem c2_write_retry_backoff_witness :
    (∀ k : Nat, ∃ m,
        (fun _ : Nat => (Except.error "database is locked" : Except String Unit)) k
            = .error m ∧
          isTransientWriteMsg m = true) ∧
      (executeWriteWithRetry
            (fun _ : Nat => (Except.error "database is locked" : Except String Unit))
            3).sleeps = [1/20, 2/25, 16/125] ∧
      (executeWriteWithRetry
            (fun _ : Nat => (Except.error "database is locked" : Except String Unit))
            3).attempts = 4 := by
  have htr : isTransientWriteMsg "database is locked" = true := by decide
  have hhyp : ∀ k : Nat, ∃ m,
      (fun _ : Nat => (Except.error "database is locked" : Except String Unit)) k
          = .error m ∧ isTransientWriteMsg m = true :=
    fun _ => ⟨"database is locked", rfl, htr⟩
  have h := (c2_write_retry_backoff
    (fun _ : Nat => (Except.error "database is locked" : Except String Unit)) 3).2.2.2.2.2
    hhyp
  refine ⟨hhyp, ?_, h.2.2⟩
  rw [h.1]
  have : List.range 3 = [0, 1, 2] := by decide
  rw [this]
  simp only [List.map_cons, List.map_nil]
  norm_num [writeDelay, nextWriteDelay]

/-- C2 counterexample: the delay slept after the sixth retry is
0.8388608 s, which is strictly above the 0.8 s cap the claim states;
the min-capped sequence described by the claim's words would give 0.8 s
there, so the code's delay sequence differs from the claimed one. -/
theorem c2_cap_counterexample :
    writeDelay 6 = 65536/78125 ∧
      (4 : ℚ)/5 < 65536/78125 ∧
      claimWriteDelay 6 = 4/5 ∧
      writeDelay 6 ≠ claimWriteDelay 6 ∧
      ((executeWriteWithRetry
            (fun _ : Nat => (Except.error "database is locked" : Except String Unit))
            80).sleeps)[6]? = some (65536/78125) := by
  have hclaim : claimWriteDelay 6 = 4/5 := by
    simp only [claimWriteDelay, min_def]
    norm_num
  have hsix := writeDelay_six
  refine ⟨hsix, by norm_num, hclaim, ?_, ?_⟩
  · rw [hsix, hclaim]; norm_num
  · have htr : isTransientWriteMsg "database is locked" = true := by decide
    have hhyp : ∀ k : Nat, ∃ m,
        (fun _ : Nat => (Except.error "database is locked" : Except String Unit)) k
            = .error m ∧ isTransientWriteMsg m = true :=
      fun _ => ⟨"database is locked", rfl, htr⟩
    have h0 : (1 : ℚ)/20 = writeDelay 0 := rfl
    have hgo := writeRetryGo_allTransient
      (fun _ : Nat => (Except.error "database is locked" : Except String Unit))
      hhyp 80 0 0 []
    have hs : (executeWriteWithRetry
        (fun _ : Nat => (Except.error "database is locked" : Except String Unit))
        80).sleeps = (List.range 80).map (fun i => writeDelay (0 + i)) := by
      rw [executeWriteWithRetry, h0, hgo]
      simp
    rw [hs, List.getElem?_map]
    simp [List.getElem?_range, hsix]

/-- C8: when an event is published, `main.TimerManagerProxy._notify` invokes
every registered callback in registration order and swallows callback
exceptions, so one raising callback stops neither the remaining callbacks
nor the publisher; `timer_manager.TimerManagerProxy._notify`, whose
exception guard is commented out, instead stops at the first raising
callback and re-raises its exception to the publisher. -/
theorem c8_notify_eval :
    notifyTM [mkCb 0 true, mkCb 1 false] [] = ([0], some "boom") ∧
    notifyMain [mkCb 0 true, mkCb 1 false] [] = [0, 1] ∧
    ∀ (spec : List (Nat × Bool)) (t : NotifyTrace),
      notifyMain (spec.map fun p => mkCb p.1 p.2) t = t ++ spec.map Prod.fst := by
  refine ⟨rfl, rfl, ?_⟩
  intro spec
  induction spec with
  | nil => intro t; simp [notifyMain]
  | cons p rest ih =>
    intro t
    simp only [List.map_cons, notifyMain, mkCb]
    rw [ih]
    simp

/-! ### Round-trip of the JSON model: digits -/

lemma numStopB_noDigitHead {l : List Char} (h : numStopB l = true) :
    noDigitHead l = true := by
  cases l with
  | nil => rfl
  | cons c cs =>
    simp only [numStopB, Bool.and_eq_true] at h
    simpa [noDigitHead] using h.1

lemma digitsRevAux_lt : ∀ fuel n, ∀ d ∈ digitsRevAux fuel n, d < 10 := by
  intro fuel
  induction fuel with
  | zero =>
    intro n d hd
    cases n <;> simp [digitsRevAux] at hd
  | succ f ih =>
    intro n d hd
    cases n with
    | zero => simp [digitsRevAux] at hd
    | succ m =>
      simp only [digitsRevAux, List.mem_cons] at hd
      rcases hd with h | h
      · omega
      · exact ih _ _ h


lemma valLE_digitsRevAux : ∀ fuel n, n ≤ fuel → valLE (digitsRevAux fuel n) = n := by
  intro fuel
  induction fuel with
  | zero =>
    intro n hn
    have : n = 0 := by omega
    subst this
    rfl
  | succ f ih =>
    intro n hn
    cases n with
    | zero => rfl
    | succ m =>
      have hdiv : (m + 1) / 10 ≤ f := by omega
      simp only [digitsRevAux, valLE, List.foldr_cons]
      have := ih ((m + 1) / 10) hdiv
      simp only [valLE] at this
      rw [this]
      omega


lemma msbFold_append (l1 l2 : List Char) (acc : Nat) :
    msbFold (l1 ++ l2) acc = msbFold l2 (msbFold l1 acc) := by
  simp [msbFold, List.foldl_append]

lemma msbFold_acc : ∀ (l : List Char) (acc : Nat),
    msbFold l acc = acc * 10 ^ l.length + msbFold l 0 := by
  intro l
  induction l with
  | nil => intro acc; simp [msbFold]
  | cons c cs ih =>
    intro acc
    show msbFold cs (acc * 10 + (c.toNat - 48)) =
      acc * 10 ^ (c :: cs).length + msbFold cs (0 * 10 + (c.toNat - 48))
    rw [ih (acc * 10 + (c.toNat - 48)), ih (0 * 10 + (c.toNat - 48))]
    simp [List.length_cons]
    ring

lemma digChar_facts : ∀ d, d < 10 →
    (digChar d).toNat = 48 + d ∧ isDigitC (digChar d) = true := by decide

lemma msbFold_rev_digits : ∀ (ds : List Nat) (acc : Nat), (∀ d ∈ ds, d < 10) →
    msbFold ((ds.map digChar).reverse) acc = acc * 10 ^ ds.length + valLE ds := by
  intro ds
  induction ds with
  | nil => intro acc h; simp [msbFold, valLE]
  | cons d ds ih =>
    intro acc h
    have hd : d < 10 := h d (by simp)
    have hds : ∀ x ∈ ds, x < 10 := fun x hx => h x (by simp [hx])
    simp only [List.map_cons, List.reverse_cons]
    rw [msbFold_append, ih acc hds]
    show (acc * 10 ^ ds.length + valLE ds) * 10 + ((digChar d).toNat - 48) =
      acc * 10 ^ (d :: ds).length + valLE (d :: ds)
    rw [(digChar_facts d hd).1]
    simp only [valLE, List.foldr_cons, List.length_cons]
    have : 48 + d - 48 = d := by omega
    rw [this]
    show (acc * 10 ^ ds.length + valLE ds) * 10 + d =
      acc * 10 ^ (ds.length + 1) + (d + 10 * valLE ds)
    ring

lemma printNat_spec (n : Nat) :
    (printNat n).all isDigitC = true ∧ msbFold (printNat n) 0 = n ∧
      printNat n ≠ [] := by
  cases n with
  | zero => refine ⟨by decide, by decide, by decide⟩
  | succ m =>
    have hlt : ∀ d ∈ natDigitsRev (m + 1), d < 10 :=
      digitsRevAux_lt (m + 1) (m + 1)
    have hval : valLE (natDigitsRev (m + 1)) = m + 1 :=
      valLE_digitsRevAux (m + 1) (m + 1) le_rfl
    have hcons : natDigitsRev (m + 1) =
        ((m + 1) % 10) :: digitsRevAux m ((m + 1) / 10) := rfl
    have hpn : printNat (m + 1) = ((natDigitsRev (m + 1)).map digChar).reverse := by
      rw [printNat, hcons]
    refine ⟨?_, ?_, ?_⟩
    · rw [hpn, List.all_eq_true]
      intro c hc
      rw [List.mem_reverse, List.mem_map] at hc
      obtain ⟨d, hd, rfl⟩ := hc
      exact (digChar_facts d (hlt d hd)).2
    · rw [hpn, msbFold_rev_digits _ 0 hlt, hval]
      simp
    · rw [hpn, hcons]
      simp

/-! ### Round-trip of the JSON model: numbers -/

lemma parseDigitsAux_digits : ∀ (ds rest : List Char) (acc cnt : Nat),
    ds.all isDigitC = true →
    parseDigitsAux (ds ++ rest) acc cnt =
      parseDigitsAux rest (msbFold ds acc) (cnt + ds.length) := by
  intro ds
  induction ds with
  | nil => intro rest acc cnt _; simp [msbFold]
  | cons c cs ih =>
    intro rest acc cnt h
    rw [List.all_cons, Bool.and_eq_true] at h
    show parseDigitsAux (c :: (cs ++ rest)) acc cnt = _
    rw [show parseDigitsAux (c :: (cs ++ rest)) acc cnt =
      if isDigitC c then
        parseDigitsAux (cs ++ rest) (acc * 10 + (c.toNat - 48)) (cnt + 1)
      else (acc, cnt, c :: (cs ++ rest)) from rfl]
    rw [if_pos h.1, ih rest _ _ h.2]
    show parseDigitsAux rest (msbFold cs (acc * 10 + (c.toNat - 48))) _ = _
    have : msbFold (c :: cs) acc = msbFold cs (acc * 10 + (c.toNat - 48)) := rfl
    rw [← this]
    congr 1
    simp [List.length_cons]
    omega

lemma parseDigitsAux_stop (rest : List Char) (acc cnt : Nat)
    (h : noDigitHead rest = true) :
    parseDigitsAux rest acc cnt = (acc, cnt, rest) := by
  cases rest with
  | nil => rfl
  | cons c cs =>
    have hc : isDigitC c = false := by
      simpa [noDigitHead] using h
    show (if isDigitC c then _ else (acc, cnt, c :: cs)) = (acc, cnt, c :: cs)
    rw [hc]
    simp

lemma isDigitC_ne_of_lt {c : Char} (h : isDigitC c = true) :
    c ≠ '-' ∧ c ≠ '.' ∧ c ≠ qChar ∧ c ≠ '[' ∧ c ≠ lbChar ∧ c ≠ 't' ∧
      c ≠ 'f' ∧ c ≠ 'n' ∧ c ≠ ']' ∧ c ≠ rbChar := by
  simp only [isDigitC, Bool.and_eq_true, decide_eq_true_eq] at h
  refine ⟨?_, ?_, ?_, ?_, ?_, ?_, ?_, ?_, ?_, ?_⟩ <;>
    · rintro rfl; revert h; decide

lemma numberTail_stop (neg : Bool) (ival : Nat) (rest : List Char)
    (h : numStopB rest = true) :
    numberTail neg ival rest = some (.vInt (intSign neg ival), rest) := by
  cases rest with
  | nil => rfl
  | cons d r2 =>
    have hd : isDigitC d = false ∧ (d == '.') = false := by
      simpa [numStopB, Bool.and_eq_true] using h
    have hne2 : d ≠ '.' := by
      intro hdd
      rw [hdd] at hd
      simp at hd
    rw [numberTail.eq_def]
    dsimp only
    rw [if_neg hne2]

lemma parseUnsignedNumber_eq (neg : Bool) (c : Char) (cs : List Char)
    (hcd : isDigitC c = true) :
    parseUnsignedNumber neg (c :: cs) =
      numberTail neg (parseDigitsAux (c :: cs) 0 0).1
        (parseDigitsAux (c :: cs) 0 0).2.2 := by
  rw [parseUnsignedNumber, if_pos hcd]

lemma parseUnsignedNumber_printNat (neg : Bool) (n : Nat) (rest : List Char)
    (h : numStopB rest = true) :
    parseUnsignedNumber neg (printNat n ++ rest) =
      some (.vInt (intSign neg n), rest) := by
  obtain ⟨hall, hval, hne⟩ := printNat_spec n
  obtain ⟨c, cs, hcs⟩ : ∃ c cs, printNat n = c :: cs := by
    cases hpn : printNat n with
    | nil => exact absurd hpn hne
    | cons c cs => exact ⟨c, cs, rfl⟩
  have hcd : isDigitC c = true := by
    rw [hcs, List.all_cons, Bool.and_eq_true] at hall
    exact hall.1
  have hparse : parseDigitsAux (printNat n ++ rest) 0 0 =
      (n, (printNat n).length, rest) := by
    rw [parseDigitsAux_digits _ _ _ _ hall,
      parseDigitsAux_stop _ _ _ (numStopB_noDigitHead h), hval]
    simp
  rw [hcs] at hparse ⊢
  rw [List.cons_append, parseUnsignedNumber_eq neg c (cs ++ rest) hcd]
  rw [List.cons_append] at hparse
  rw [hparse]
  exact numberTail_stop neg n rest h

lemma parseNumber_printInt (i : Int) (rest : List Char)
    (h : numStopB rest = true) :
    parseNumber (printInt i ++ rest) = some (.vInt i, rest) := by
  by_cases hneg : i < 0
  · rw [printInt, if_pos hneg]
    show parseNumber ('-' :: (printNat i.natAbs ++ rest)) = _
    rw [show parseNumber ('-' :: (printNat i.natAbs ++ rest)) =
      if ('-' : Char) = '-' then parseUnsignedNumber true (printNat i.natAbs ++ rest)
      else parseUnsignedNumber false ('-' :: (printNat i.natAbs ++ rest)) from rfl]
    rw [if_pos rfl, parseUnsignedNumber_printNat true i.natAbs rest h]
    have hsg : intSign true i.natAbs = -(i.natAbs : Int) := rfl
    have : intSign true i.natAbs = i := by rw [hsg]; omega
    rw [this]
  · rw [printInt, if_neg hneg]
    obtain ⟨hall, _, hne⟩ := printNat_spec i.natAbs
    obtain ⟨c, cs, hcs⟩ : ∃ c cs, printNat i.natAbs = c :: cs := by
      cases hpn : printNat i.natAbs with
      | nil => exact absurd hpn hne
      | cons c cs => exact ⟨c, cs, rfl⟩
    have hcd : isDigitC c = true := by
      rw [hcs, List.all_cons, Bool.and_eq_true] at hall
      exact hall.1
    have hcne : c ≠ '-' := (isDigitC_ne_of_lt hcd).1
    rw [hcs]
    show (if c = '-' then parseUnsignedNumber true (cs ++ rest)
      else parseUnsignedNumber false (c :: (cs ++ rest))) = _
    rw [if_neg hcne]
    have hmain := parseUnsignedNumber_printNat false i.natAbs rest h
    rw [hcs] at hmain
    simp only [List.cons_append] at hmain
    rw [hmain]
    have hsg : intSign false i.natAbs = (i.natAbs : Int) := rfl
    have : intSign false i.natAbs = i := by rw [hsg]; omega
    rw [this]

lemma msbFold_replicate_zero : ∀ j, msbFold (List.replicate j '0') 0 = 0 := by
  intro j
  induction j with
  | zero => rfl
  | succ j ih =>
    show msbFold (List.replicate j '0') (0 * 10 + (('0' : Char).toNat - 48)) = 0
    have : 0 * 10 + (('0' : Char).toNat - 48) = 0 := by decide
    rw [this]
    exact ih

lemma pick10_dvd (d : Nat) (hd : 0 < d) (h : 10 ^ d % d = 0) :
    d ∣ 10 ^ max (pick10 d) 1 := by
  have hsome : ((List.range (d + 1)).find? (fun k => 10 ^ k % d == 0)).isSome := by
    rw [List.find?_isSome]
    exact ⟨d, by simp [List.mem_range], by simp [h]⟩
  obtain ⟨k0, hk0⟩ := Option.isSome_iff_exists.mp hsome
  have hp := List.find?_some hk0
  have hdvd0 : d ∣ 10 ^ k0 := by
    rw [beq_iff_eq] at hp
    exact Nat.dvd_of_mod_eq_zero hp
  have hpick : pick10 d = k0 := by simp [pick10, hk0]
  calc d ∣ 10 ^ k0 := hdvd0
    _ ∣ 10 ^ max (pick10 d) 1 := by
        apply pow_dvd_pow
        rw [hpick]
        exact le_max_left _ _

lemma numberTail_frac (neg : Bool) (ival : Nat) (fp rest : List Char)
    (hfp : fp.all isDigitC = true) (hfpne : fp ≠ [])
    (hrest : noDigitHead rest = true) :
    numberTail neg ival ('.' :: (fp ++ rest)) =
      some (.vFloat (ratSign neg
          ((ival : ℚ) + (msbFold fp 0 : ℚ) / 10 ^ fp.length)), rest) := by
  obtain ⟨e, es, rfl⟩ : ∃ e es, fp = e :: es := by
    cases fp with
    | nil => exact absurd rfl hfpne
    | cons e es => exact ⟨e, es, rfl⟩
  have hed : isDigitC e = true := by
    rw [List.all_cons, Bool.and_eq_true] at hfp
    exact hfp.1
  have hparse : parseDigitsAux ((e :: es) ++ rest) 0 0 =
      (msbFold (e :: es) 0, (e :: es).length, rest) := by
    rw [parseDigitsAux_digits _ _ _ _ hfp, parseDigitsAux_stop _ _ _ hrest]
    simp
  rw [numberTail.eq_def]
  dsimp only
  rw [if_pos rfl]
  simp only [List.cons_append]
  simp only [List.cons_append] at hparse
  rw [hparse, if_pos hed]

lemma parseUnsignedNumber_frac (neg : Bool) (ip fp rest : List Char)
    (hip : ip.all isDigitC = true) (hipne : ip ≠ [])
    (hfp : fp.all isDigitC = true) (hfpne : fp ≠ [])
    (hrest : noDigitHead rest = true) :
    parseUnsignedNumber neg (ip ++ '.' :: (fp ++ rest)) =
      some (.vFloat (ratSign neg
          ((msbFold ip 0 : ℚ) + (msbFold fp 0 : ℚ) / 10 ^ fp.length)), rest) := by
  obtain ⟨c, cs, rfl⟩ : ∃ c cs, ip = c :: cs := by
    cases ip with
    | nil => exact absurd rfl hipne
    | cons c cs => exact ⟨c, cs, rfl⟩
  have hcd : isDigitC c = true := by
    rw [List.all_cons, Bool.and_eq_true] at hip
    exact hip.1
  have hparse : parseDigitsAux ((c :: cs) ++ '.' :: (fp ++ rest)) 0 0 =
      (msbFold (c :: cs) 0, (c :: cs).length, '.' :: (fp ++ rest)) := by
    rw [parseDigitsAux_digits _ _ _ _ hip, parseDigitsAux_stop]
    · simp
    · rfl
  rw [List.cons_append, parseUnsignedNumber_eq neg c _ hcd]
  rw [List.cons_append] at hparse
  rw [hparse]
  exact numberTail_frac neg (msbFold (c :: cs) 0) fp rest hfp hfpne hrest

lemma parseNumber_printQ (q : ℚ) (rest : List Char)
    (hq : 10 ^ q.den % q.den = 0) (h : numStopB rest = true) :
    parseNumber (printQ q ++ rest) = some (.vFloat q, rest) := by
  have hdpos : 0 < q.den := q.pos
  have hdvd : q.den ∣ 10 ^ max (pick10 q.den) 1 := pick10_dvd q.den hdpos hq
  set k := max (pick10 q.den) 1 with hkdef
  have hk1 : 1 ≤ k := le_max_right _ _
  set m := q.num.natAbs * 10 ^ k / q.den with hmdef
  obtain ⟨hall0, hval0, hne0⟩ := printNat_spec m
  set ds0 := printNat m with hds0def
  set ds := List.replicate (k + 1 - ds0.length) '0' ++ ds0 with hdsdef
  set ip := ds.take (ds.length - k) with hipdef
  set fp := ds.drop (ds.length - k) with hfpdef
  have hprint : printQ q =
      (if q.num < 0 then ['-'] else []) ++ (ip ++ '.' :: fp) := rfl
  have hlen0 : 1 ≤ ds0.length := List.length_pos.mpr hne0
  have hlends : k + 1 ≤ ds.length := by
    rw [hdsdef, List.length_append, List.length_replicate]
    omega
  have hall : ds.all isDigitC = true := by
    rw [hdsdef, List.all_append, Bool.and_eq_true]
    refine ⟨?_, hall0⟩
    rw [List.all_eq_true]
    intro c hc
    rw [List.mem_replicate] at hc
    rw [hc.2]
    decide
  have hmds : msbFold ds 0 = m := by
    rw [hdsdef, msbFold_append, msbFold_replicate_zero, hval0]
  have hipfp : ip ++ fp = ds := List.take_append_drop _ _
  have hfplen : fp.length = k := by
    rw [hfpdef, List.length_drop]
    omega
  have hiplen : 1 ≤ ip.length := by
    rw [hipdef, List.length_take]
    omega
  have hipne : ip ≠ [] := by
    intro hnil
    rw [hnil] at hiplen
    simp at hiplen
  have hfpne : fp ≠ [] := by
    intro hnil
    rw [hnil] at hfplen
    simp at hfplen
    omega
  have hallip : ip.all isDigitC = true ∧ fp.all isDigitC = true := by
    have := hall
    rw [← hipfp, List.all_append, Bool.and_eq_true] at this
    exact this
  have hsplit : msbFold ip 0 * 10 ^ k + msbFold fp 0 = m := by
    rw [← hmds, ← hipfp, msbFold_append, msbFold_acc fp (msbFold ip 0), hfplen]
  -- the parsed magnitude is exactly |q|
  have hden_ne : (q.den : ℚ) ≠ 0 := by
    exact_mod_cast Nat.pos_iff_ne_zero.mp hdpos
  have hpow_ne : ((10 : ℚ)) ^ k ≠ 0 := by positivity
  have hdvd2 : q.den ∣ q.num.natAbs * 10 ^ k := Dvd.dvd.mul_left hdvd _
  have hmcast : (m : ℚ) = (q.num.natAbs : ℚ) * 10 ^ k / (q.den : ℚ) := by
    rw [hmdef]
    rw [Nat.cast_div hdvd2 hden_ne]
    push_cast
    ring
  have hmag : (msbFold ip 0 : ℚ) + (msbFold fp 0 : ℚ) / 10 ^ fp.length =
      (q.num.natAbs : ℚ) / (q.den : ℚ) := by
    rw [hfplen]
    have hcast : ((msbFold ip 0 * 10 ^ k + msbFold fp 0 : ℕ) : ℚ) = (m : ℚ) := by
      exact_mod_cast congrArg (Nat.cast (R := ℚ)) hsplit
    push_cast at hcast
    rw [hmcast] at hcast
    field_simp
    field_simp at hcast
    linarith [hcast]
  by_cases hneg : q.num < 0
  · have hsign : (if q.num < 0 then ['-'] else []) = ['-'] := if_pos hneg
    rw [hprint, hsign]
    show parseNumber ('-' :: (ip ++ '.' :: fp) ++ rest) = _
    rw [show ('-' :: (ip ++ '.' :: fp)) ++ rest =
      '-' :: (ip ++ '.' :: (fp ++ rest)) by simp]
    rw [show parseNumber ('-' :: (ip ++ '.' :: (fp ++ rest))) =
      if ('-' : Char) = '-' then
        parseUnsignedNumber true (ip ++ '.' :: (fp ++ rest))
      else parseUnsignedNumber false ('-' :: (ip ++ '.' :: (fp ++ rest))) from rfl]
    rw [if_pos rfl, parseUnsignedNumber_frac true ip fp rest hallip.1 hipne
      hallip.2 hfpne (numStopB_noDigitHead h)]
    have hv : ratSign true
        ((msbFold ip 0 : ℚ) + (msbFold fp 0 : ℚ) / 10 ^ fp.length) = q := by
      rw [ratSign, if_pos rfl, hmag]
      have h1 : ((q.num.natAbs : ℕ) : ℚ) = -(q.num : ℚ) := by
        rw [Int.cast_natAbs]
        have h2 : |q.num| = -q.num := abs_of_neg hneg
        exact_mod_cast h2
      rw [h1, neg_div, neg_neg]
      exact Rat.num_div_den q
    rw [hv]
  · have hsign : (if q.num < 0 then ['-'] else []) = [] := if_neg hneg
    rw [hprint, hsign]
    simp only [List.nil_append]
    rw [show (ip ++ '.' :: fp) ++ rest = ip ++ '.' :: (fp ++ rest) by simp]
    obtain ⟨c, cs, hcc⟩ : ∃ c cs, ip = c :: cs := by
      cases hip : ip with
      | nil => exact absurd hip hipne
      | cons c cs => exact ⟨c, cs, rfl⟩
    have hcd : isDigitC c = true := by
      have := hallip.1
      rw [hcc, List.all_cons, Bool.and_eq_true] at this
      exact this.1
    have hcne : c ≠ '-' := (isDigitC_ne_of_lt hcd).1
    have hmain := parseUnsignedNumber_frac false ip fp rest hallip.1 hipne
      hallip.2 hfpne (numStopB_noDigitHead h)
    have hv : ratSign false
        ((msbFold ip 0 : ℚ) + (msbFold fp 0 : ℚ) / 10 ^ fp.length) = q := by
      rw [show ratSign false
        ((msbFold ip 0 : ℚ) + (msbFold fp 0 : ℚ) / 10 ^ fp.length) =
          (msbFold ip 0 : ℚ) + (msbFold fp 0 : ℚ) / 10 ^ fp.length from rfl]
      rw [hmag]
      have h1 : ((q.num.natAbs : ℕ) : ℚ) = (q.num : ℚ) := by
        rw [Int.cast_natAbs]
        have h2 : |q.num| = q.num := abs_of_nonneg (not_lt.mp hneg)
        exact_mod_cast h2
      rw [h1]
      exact Rat.num_div_den q
    rw [hv] at hmain
    rw [hcc] at hmain ⊢
    rw [show parseNumber (c :: cs ++ '.' :: (fp ++ rest)) =
      if c = '-' then parseUnsignedNumber true (cs ++ '.' :: (fp ++ rest))
      else parseUnsignedNumber false (c :: (cs ++ '.' :: (fp ++ rest))) from rfl]
    rw [if_neg hcne]
    simp only [List.cons_append] at hmain
    exact hmain

/-! ### Round-trip of the JSON model: strings -/

lemma parseHexDigit_hexDigitChar : ∀ d, d < 16 →
    parseHexDigit (hexDigitChar d) = some d := by decide

lemma parseStrBody_q (rest : List Char) :
    parseStrBody (qChar :: rest) = some ([], rest) := by
  rw [parseStrBody.eq_def]
  dsimp only
  rw [if_pos rfl]

lemma parseStrBody_plain (x : Char) (rest : List Char) (h1 : x ≠ qChar)
    (h2 : x ≠ bsChar) :
    parseStrBody (x :: rest) = consCase x (parseStrBody rest) := by
  rw [parseStrBody.eq_def]
  dsimp only
  rw [if_neg h1, if_neg h2]

lemma parseStrBody_bs (e : Char) (rest2 : List Char) :
    parseStrBody (bsChar :: e :: rest2) =
      (if e = qChar then consCase qChar (parseStrBody rest2)
      else if e = bsChar then consCase bsChar (parseStrBody rest2)
      else if e = 'b' then consCase (Char.ofNat 8) (parseStrBody rest2)
      else if e = 't' then consCase (Char.ofNat 9) (parseStrBody rest2)
      else if e = 'n' then consCase (Char.ofNat 10) (parseStrBody rest2)
      else if e = 'f' then consCase (Char.ofNat 12) (parseStrBody rest2)
      else if e = 'r' then consCase (Char.ofNat 13) (parseStrBody rest2)
      else if e = 'u' then
        match rest2 with
        | h1 :: h2 :: h3 :: h4 :: rest3 =>
          match parseHexDigit h1, parseHexDigit h2, parseHexDigit h3,
              parseHexDigit h4 with
          | some a, some b, some c2, some d =>
            consCase (Char.ofNat (a * 4096 + b * 256 + c2 * 16 + d))
              (parseStrBody rest3)
          | _, _, _, _ => none
        | _ => none
      else none) := by
  rw [parseStrBody.eq_def]
  dsimp only
  rw [if_neg (show ¬(bsChar = qChar) by decide), if_pos rfl]

lemma parseStrBody_esc (c : Char) (hc : c.toNat < 65536) (tail : List Char) :
    parseStrBody (escChar c ++ tail) = consCase c (parseStrBody tail) := by
  by_cases h1 : c = qChar
  · subst h1
    rw [show escChar qChar = [bsChar, qChar] by decide]
    rw [show ([bsChar, qChar] : List Char) ++ tail = bsChar :: qChar :: tail from rfl]
    rw [parseStrBody_bs, if_pos rfl]
  · by_cases h2 : c = bsChar
    · subst h2
      rw [show escChar bsChar = [bsChar, bsChar] by decide]
      rw [show ([bsChar, bsChar] : List Char) ++ tail = bsChar :: bsChar :: tail
        from rfl]
      rw [parseStrBody_bs, if_neg (show ¬(bsChar = qChar) by decide), if_pos rfl]
    · by_cases h3 : c = Char.ofNat 8
      · subst h3
        rw [show escChar (Char.ofNat 8) = [bsChar, 'b'] by decide]
        rw [show ([bsChar, 'b'] : List Char) ++ tail = bsChar :: 'b' :: tail
          from rfl]
        rw [parseStrBody_bs]
        rw [if_neg (by decide), if_neg (by decide), if_pos rfl]
      · by_cases h4 : c = Char.ofNat 9
        · subst h4
          rw [show escChar (Char.ofNat 9) = [bsChar, 't'] by decide]
          rw [show ([bsChar, 't'] : List Char) ++ tail = bsChar :: 't' :: tail
            from rfl]
          rw [parseStrBody_bs]
          rw [if_neg (by decide), if_neg (by decide), if_neg (by decide),
            if_pos rfl]
        · by_cases h5 : c = Char.ofNat 10
          · subst h5
            rw [show escChar (Char.ofNat 10) = [bsChar, 'n'] by decide]
            rw [show ([bsChar, 'n'] : List Char) ++ tail = bsChar :: 'n' :: tail
              from rfl]
            rw [parseStrBody_bs]
            rw [if_neg (by decide), if_neg (by decide), if_neg (by decide),
              if_neg (by decide), if_pos rfl]
          · by_cases h6 : c = Char.ofNat 12
            · subst h6
              rw [show escChar (Char.ofNat 12) = [bsChar, 'f'] by decide]
              rw [show ([bsChar, 'f'] : List Char) ++ tail = bsChar :: 'f' :: tail
                from rfl]
              rw [parseStrBody_bs]
              rw [if_neg (by decide), if_neg (by decide), if_neg (by decide),
                if_neg (by decide), if_neg (by decide), if_pos rfl]
            · by_cases h7 : c = Char.ofNat 13
              · subst h7
                rw [show escChar (Char.ofNat 13) = [bsChar, 'r'] by decide]
                rw [show ([bsChar, 'r'] : List Char) ++ tail =
                  bsChar :: 'r' :: tail from rfl]
                rw [parseStrBody_bs]
                rw [if_neg (by decide), if_neg (by decide), if_neg (by decide),
                  if_neg (by decide), if_neg (by decide), if_neg (by decide),
                  if_pos rfl]
              · by_cases h8 : 32 ≤ c.toNat ∧ c.toNat ≤ 126
                · have hesc : escChar c = [c] := by
                    rw [escChar, if_neg h1, if_neg h2, if_neg h3, if_neg h4,
                      if_neg h5, if_neg h6, if_neg h7, if_pos h8]
                  rw [hesc]
                  rw [show ([c] : List Char) ++ tail = c :: tail from rfl]
                  exact parseStrBody_plain c tail h1 h2
                · have hesc : escChar c = bsChar :: 'u' :: hex4 c.toNat := by
                    rw [escChar, if_neg h1, if_neg h2, if_neg h3, if_neg h4,
                      if_neg h5, if_neg h6, if_neg h7, if_neg h8]
                  rw [hesc]
                  rw [show (bsChar :: 'u' :: hex4 c.toNat) ++ tail =
                    bsChar :: 'u' :: (hex4 c.toNat ++ tail) from rfl]
                  rw [parseStrBody_bs]
                  rw [if_neg (by decide), if_neg (by decide), if_neg (by decide),
                    if_neg (by decide), if_neg (by decide), if_neg (by decide),
                    if_neg (by decide), if_pos rfl]
                  rw [show hex4 c.toNat ++ tail =
                    hexDigitChar (c.toNat / 4096 % 16) ::
                      hexDigitChar (c.toNat / 256 % 16) ::
                        hexDigitChar (c.toNat / 16 % 16) ::
                          hexDigitChar (c.toNat % 16) :: tail from rfl]
                  dsimp only
                  rw [parseHexDigit_hexDigitChar _ (Nat.mod_lt _ (by norm_num)),
                    parseHexDigit_hexDigitChar _ (Nat.mod_lt _ (by norm_num)),
                    parseHexDigit_hexDigitChar _ (Nat.mod_lt _ (by norm_num)),
                    parseHexDigit_hexDigitChar _ (Nat.mod_lt _ (by norm_num))]
                  dsimp only
                  have hn : c.toNat / 4096 % 16 * 4096 + c.toNat / 256 % 16 * 256 +
                      c.toNat / 16 % 16 * 16 + c.toNat % 16 = c.toNat := by
                    omega
                  rw [hn, Char.ofNat_toNat]

lemma printInt_head (i : Int) :
    ∃ c cs, printInt i = c :: cs ∧ (c = '-' ∨ isDigitC c = true) := by
  by_cases hneg : i < 0
  · exact ⟨'-', printNat i.natAbs, by rw [printInt, if_pos hneg], Or.inl rfl⟩
  · obtain ⟨hall, _, hne⟩ := printNat_spec i.natAbs
    obtain ⟨c, cs, hcs⟩ : ∃ c cs, printNat i.natAbs = c :: cs := by
      cases hpn : printNat i.natAbs with
      | nil => exact absurd hpn hne
      | cons c cs => exact ⟨c, cs, rfl⟩
    have hcd : isDigitC c = true := by
      rw [hcs, List.all_cons, Bool.and_eq_true] at hall
      exact hall.1
    exact ⟨c, cs, by rw [printInt, if_neg hneg, hcs], Or.inr hcd⟩

lemma printQ_head (q : ℚ) :
    ∃ c cs, printQ q = c :: cs ∧ (c = '-' ∨ isDigitC c = true) := by
  set k := max (pick10 q.den) 1 with hkdef
  have hk1 : 1 ≤ k := le_max_right _ _
  set m := q.num.natAbs * 10 ^ k / q.den with hmdef
  obtain ⟨hall0, _, hne0⟩ := printNat_spec m
  set ds0 := printNat m with hds0def
  set ds := List.replicate (k + 1 - ds0.length) '0' ++ ds0 with hdsdef
  set ip := ds.take (ds.length - k) with hipdef
  set fp := ds.drop (ds.length - k) with hfpdef
  have hprint : printQ q =
      (if q.num < 0 then ['-'] else []) ++ (ip ++ '.' :: fp) := rfl
  by_cases hneg : q.num < 0
  · refine ⟨'-', ip ++ '.' :: fp, ?_, Or.inl rfl⟩
    rw [hprint, if_pos hneg]
    rfl
  · have hlen0 : 1 ≤ ds0.length := List.length_pos.mpr hne0
    have hlends : k + 1 ≤ ds.length := by
      rw [hdsdef, List.length_append, List.length_replicate]
      omega
    have hall : ds.all isDigitC = true := by
      rw [hdsdef, List.all_append, Bool.and_eq_true]
      refine ⟨?_, hall0⟩
      rw [List.all_eq_true]
      intro c hc
      rw [List.mem_replicate] at hc
      rw [hc.2]
      decide
    have hipfp : ip ++ fp = ds := List.take_append_drop _ _
    have hiplen : 1 ≤ ip.length := by
      rw [hipdef, List.length_take]
      omega
    obtain ⟨c, cs, hcs⟩ : ∃ c cs, ip = c :: cs := by
      cases hip : ip with
      | nil => rw [hip] at hiplen; simp at hiplen
      | cons c cs => exact ⟨c, cs, rfl⟩
    have hcd : isDigitC c = true := by
      have hip_all : ip.all isDigitC = true := by
        have := hall
        rw [← hipfp, List.all_append, Bool.and_eq_true] at this
        exact this.1
      rw [hcs, List.all_cons, Bool.and_eq_true] at hip_all
      exact hip_all.1
    refine ⟨c, cs ++ '.' :: fp, ?_, Or.inr hcd⟩
    rw [hprint, if_neg hneg, List.nil_append, hcs]
    rfl

lemma one_le_szV (v : PyVal) : 1 ≤ szV v := by
  cases v <;> simp [szV]

lemma one_le_szL_cons (x : PyVal) (xs : PyValList) :
    1 ≤ szL (PyValList.cons x xs) := by
  show 1 ≤ szV x + szL xs + 1
  omega

lemma one_le_szD_cons (k : String) (v : PyVal) (kvs : PyValDict) :
    1 ≤ szD (PyValDict.cons k v kvs) := by
  show 1 ≤ szV v + szD kvs + 1
  omega

lemma parseVal_eq_parseNumber (f : Nat) (c : Char) (cs : List Char)
    (hc : c = '-' ∨ isDigitC c = true) :
    parseVal (f + 1) (c :: cs) = parseNumber (c :: cs) := by
  have h6 : c ≠ qChar ∧ c ≠ '[' ∧ c ≠ lbChar ∧ c ≠ 't' ∧ c ≠ 'f' ∧ c ≠ 'n' := by
    rcases hc with rfl | hd
    · exact ⟨by decide, by decide, by decide, by decide, by decide, by decide⟩
    · have h := isDigitC_ne_of_lt hd
      exact ⟨h.2.2.1, h.2.2.2.1, h.2.2.2.2.1, h.2.2.2.2.2.1, h.2.2.2.2.2.2.1,
        h.2.2.2.2.2.2.2.1⟩
  rw [parseVal.eq_def]
  dsimp only
  rw [if_neg h6.1, if_neg h6.2.1, if_neg h6.2.2.1, if_neg h6.2.2.2.1,
    if_neg h6.2.2.2.2.1, if_neg h6.2.2.2.2.2]

lemma printVal_head_ne : ∀ v : PyVal, ∃ c cs, printVal v = c :: cs ∧ c ≠ ']' := by
  intro v
  cases v with
  | vStr s => exact ⟨qChar, _, rfl, by decide⟩
  | vInt n =>
    obtain ⟨c, cs, hcs, hc⟩ := printInt_head n
    refine ⟨c, cs, hcs, ?_⟩
    rcases hc with rfl | hd
    · decide
    · exact (isDigitC_ne_of_lt hd).2.2.2.2.2.2.2.2.1
  | vBool b =>
    cases b
    · exact ⟨'f', _, rfl, by decide⟩
    · exact ⟨'t', _, rfl, by decide⟩
  | vFloat q =>
    obtain ⟨c, cs, hcs, hc⟩ := printQ_head q
    refine ⟨c, cs, hcs, ?_⟩
    rcases hc with rfl | hd
    · decide
    · exact (isDigitC_ne_of_lt hd).2.2.2.2.2.2.2.2.1
  | vNone => exact ⟨'n', _, rfl, by decide⟩
  | vList xs => exact ⟨'[', _, rfl, by decide⟩
  | vDict kvs => exact ⟨lbChar, _, rfl, by decide⟩

lemma parseStrBody_escList : ∀ (cs rest : List Char),
    (∀ c ∈ cs, c.toNat < 65536) →
    parseStrBody (escList cs ++ (qChar :: rest)) = some (cs, rest) := by
  intro cs
  induction cs with
  | nil =>
    intro rest _
    rw [show escList [] = [] from rfl, List.nil_append]
    exact parseStrBody_q rest
  | cons c cs ih =>
    intro rest h
    rw [show escList (c :: cs) = escChar c ++ escList cs from rfl,
      List.append_assoc]
    rw [parseStrBody_esc c (h c (by simp)) _]
    rw [ih rest (fun x hx => h x (by simp [hx]))]
    rfl

/-! ### Round-trip of the JSON model: values -/

lemma parseVal_quote (f : Nat) (body : List Char) :
    parseVal (f + 1) (qChar :: body) =
      (parseStrBody body).map (fun p => (.vStr (String.mk p.1), p.2)) := by
  rw [parseVal.eq_def]
  dsimp only
  rw [if_pos rfl]

lemma numStopB_cons (c : Char) (h : (!isDigitC c && !(c == '.')) = true)
    (r : List Char) : numStopB (c :: r) = true := h

lemma parseVal_true (f : Nat) (rest : List Char) :
    parseVal (f + 1) ('t' :: 'r' :: 'u' :: 'e' :: rest) =
      some (.vBool true, rest) := by
  rw [parseVal.eq_def]
  dsimp only
  rw [if_neg (by decide), if_neg (by decide), if_neg (by decide), if_pos rfl]
  rw [if_pos rfl, if_pos rfl, if_pos rfl]

lemma parseVal_false (f : Nat) (rest : List Char) :
    parseVal (f + 1) ('f' :: 'a' :: 'l' :: 's' :: 'e' :: rest) =
      some (.vBool false, rest) := by
  rw [parseVal.eq_def]
  dsimp only
  rw [if_neg (by decide), if_neg (by decide), if_neg (by decide),
    if_neg (by decide), if_pos rfl]
  rw [if_pos rfl, if_pos rfl, if_pos rfl, if_pos rfl]

lemma parseVal_null (f : Nat) (rest : List Char) :
    parseVal (f + 1) ('n' :: 'u' :: 'l' :: 'l' :: rest) =
      some (.vNone, rest) := by
  rw [parseVal.eq_def]
  dsimp only
  rw [if_neg (by decide), if_neg (by decide), if_neg (by decide),
    if_neg (by decide), if_neg (by decide), if_pos rfl]
  rw [if_pos rfl, if_pos rfl, if_pos rfl]

lemma parseVal_lsq (f : Nat) (r : Char) (rest2 : List Char) :
    parseVal (f + 1) ('[' :: r :: rest2) =
      (if r = ']' then some (.vList .nil, rest2)
      else (parseItems f (r :: rest2)).map fun p => (.vList p.1, p.2)) := by
  rw [parseVal.eq_def]
  dsimp only
  rw [if_neg (by decide), if_pos rfl]

lemma parseVal_lbrace (f : Nat) (r : Char) (rest2 : List Char) :
    parseVal (f + 1) (lbChar :: r :: rest2) =
      (if r = rbChar then some (.vDict .nil, rest2)
      else (parseEntries f (r :: rest2)).map fun p => (.vDict p.1, p.2)) := by
  rw [parseVal.eq_def]
  dsimp only
  rw [if_neg (by decide), if_neg (by decide), if_pos rfl]

theorem parse_print_all : ∀ N : Nat,
    (∀ (v : PyVal) (fuel : Nat) (rest : List Char), szV v ≤ N → szV v ≤ fuel →
      jsonableV v = true → numStopB rest = true →
      parseVal fuel (printVal v ++ rest) = some (v, rest)) ∧
    (∀ (xs : PyValList) (fuel : Nat) (rest : List Char), szL xs ≤ N →
      szL xs ≤ fuel → jsonableL xs = true → xs ≠ .nil →
      parseItems fuel (printItems xs ++ ']' :: rest) = some (xs, rest)) ∧
    (∀ (kvs : PyValDict) (fuel : Nat) (rest : List Char), szD kvs ≤ N →
      szD kvs ≤ fuel → jsonableD kvs = true → kvs ≠ .nil →
      parseEntries fuel (printEntries kvs ++ rbChar :: rest) =
        some (kvs, rest)) := by
  intro N
  induction N using Nat.strong_induction_on with
  | _ N ih =>
  refine ⟨?_, ?_, ?_⟩
  · -- values
    intro v fuel rest hN hfuel hj hstop
    obtain ⟨f, rfl⟩ : ∃ f, fuel = f + 1 := by
      have := one_le_szV v
      cases fuel with
      | zero => omega
      | succ f => exact ⟨f, rfl⟩
    cases v with
    | vStr s =>
      have hok : ∀ c ∈ s.data, c.toNat < 65536 := by
        have hsj : strOkB s = true := hj
        rw [strOkB, List.all_eq_true] at hsj
        intro c hc
        simpa using hsj c hc
      show parseVal (f + 1) (printString s ++ rest) = _
      rw [show printString s ++ rest =
        qChar :: (escList s.data ++ (qChar :: rest)) by rw [printString]; simp]
      rw [parseVal_quote, parseStrBody_escList s.data rest hok]
      rfl
    | vInt n =>
      obtain ⟨c, cs, hcs, hc⟩ := printInt_head n
      show parseVal (f + 1) (printInt n ++ rest) = _
      rw [hcs, List.cons_append, parseVal_eq_parseNumber f c _ hc,
        ← List.cons_append, ← hcs]
      exact parseNumber_printInt n rest hstop
    | vFloat q =>
      have hq : 10 ^ q.den % q.den = 0 := by
        have hb : (10 ^ q.den % q.den == 0) = true := hj
        simpa using hb
      obtain ⟨c, cs, hcs, hc⟩ := printQ_head q
      show parseVal (f + 1) (printQ q ++ rest) = _
      rw [hcs, List.cons_append, parseVal_eq_parseNumber f c _ hc,
        ← List.cons_append, ← hcs]
      exact parseNumber_printQ q rest hq hstop
    | vBool b =>
      cases b
      · exact parseVal_false f rest
      · exact parseVal_true f rest
    | vNone => exact parseVal_null f rest
    | vList xs =>
      show parseVal (f + 1) (('[' :: (printItems xs ++ [']'])) ++ rest) = _
      rw [show ('[' :: (printItems xs ++ [']'])) ++ rest =
        '[' :: (printItems xs ++ (']' :: rest)) by simp]
      cases xs with
      | nil =>
        rw [show printItems PyValList.nil ++ (']' :: rest) = ']' :: rest from rfl]
        rw [parseVal_lsq, if_pos rfl]
      | cons x xs2 =>
        obtain ⟨c0, cs0, hc0, hcne0⟩ := printVal_head_ne x
        have hhead : printItems (PyValList.cons x xs2) ++ (']' :: rest) =
            c0 :: (cs0 ++ (List.drop (printVal x).length
              (printItems (PyValList.cons x xs2)) ++ (']' :: rest))) := by
          cases xs2 with
          | nil =>
            rw [show printItems (PyValList.cons x PyValList.nil) = printVal x
              from rfl, hc0]
            simp
          | cons y ys =>
            rw [show printItems (PyValList.cons x (PyValList.cons y ys)) =
              printVal x ++ ',' :: ' ' :: printItems (PyValList.cons y ys)
              from rfl, hc0]
            simp
        rw [hhead, parseVal_lsq, if_neg hcne0, ← hhead]
        have hsz : szV (PyVal.vList (PyValList.cons x xs2)) =
            szL (PyValList.cons x xs2) + 1 := rfl
        have hNpos : 1 ≤ N := le_trans (one_le_szV _) hN
        have hL := (ih (N - 1) (by omega)).2.1 (PyValList.cons x xs2) f rest
          (by omega) (by omega)
          (show jsonableL (PyValList.cons x xs2) = true from hj)
          (fun hcon => PyValList.noConfusion hcon)
        rw [hL]
        rfl
    | vDict kvs =>
      show parseVal (f + 1) ((lbChar :: (printEntries kvs ++ [rbChar])) ++ rest) = _
      rw [show (lbChar :: (printEntries kvs ++ [rbChar])) ++ rest =
        lbChar :: (printEntries kvs ++ (rbChar :: rest)) by simp]
      cases kvs with
      | nil =>
        rw [show printEntries PyValDict.nil ++ (rbChar :: rest) = rbChar :: rest
          from rfl]
        rw [parseVal_lbrace, if_pos rfl]
      | cons k v tail =>
        obtain ⟨z, hz⟩ : ∃ z, printEntries (PyValDict.cons k v tail) ++
            (rbChar :: rest) = qChar :: z := by
          cases tail with
          | nil =>
            refine ⟨(escList k.data ++ [qChar]) ++
              ((':' :: ' ' :: printVal v) ++ (rbChar :: rest)), ?_⟩
            rw [show printEntries (PyValDict.cons k v PyValDict.nil) =
              printString k ++ (':' :: ' ' :: printVal v) from rfl, printString]
            simp
          | cons k2 v2 kvs2 =>
            refine ⟨(escList k.data ++ [qChar]) ++
              (((':' :: ' ' :: printVal v) ++ ',' :: ' ' ::
                printEntries (PyValDict.cons k2 v2 kvs2)) ++ (rbChar :: rest)), ?_⟩
            rw [show printEntries (PyValDict.cons k v (PyValDict.cons k2 v2 kvs2)) =
              printString k ++ (':' :: ' ' :: printVal v) ++ ',' :: ' ' ::
                printEntries (PyValDict.cons k2 v2 kvs2) from rfl, printString]
            simp
        rw [hz, parseVal_lbrace, if_neg (by decide), ← hz]
        have hsz : szV (PyVal.vDict (PyValDict.cons k v tail)) =
            szD (PyValDict.cons k v tail) + 1 := rfl
        have hNpos : 1 ≤ N := le_trans (one_le_szV _) hN
        have hD := (ih (N - 1) (by omega)).2.2 (PyValDict.cons k v tail) f rest
          (by omega) (by omega)
          (show jsonableD (PyValDict.cons k v tail) = true from hj)
          (fun hcon => PyValDict.noConfusion hcon)
        rw [hD]
        rfl
  · -- list items
    intro xs fuel rest hN hfuel hj hne
    cases xs with
    | nil => exact absurd rfl hne
    | cons x xs2 =>
      obtain ⟨f, rfl⟩ : ∃ f, fuel = f + 1 := by
        have := one_le_szL_cons x xs2
        cases fuel with
        | zero => omega
        | succ f => exact ⟨f, rfl⟩
      have hszc : szL (PyValList.cons x xs2) = szV x + szL xs2 + 1 := rfl
      have hNpos : 1 ≤ N := le_trans (one_le_szL_cons x xs2) hN
      have hjx : jsonableV x = true ∧ jsonableL xs2 = true := by
        have hjc : (jsonableV x && jsonableL xs2) = true := hj
        rw [Bool.and_eq_true] at hjc
        exact hjc
      have hszVx := one_le_szV x
      rw [parseItems.eq_def]
      dsimp only
      cases xs2 with
      | nil =>
        have hn0 : szL PyValList.nil = 0 := rfl
        rw [show printItems (PyValList.cons x PyValList.nil) ++ (']' :: rest) =
          printVal x ++ (']' :: rest) from rfl]
        have hV := (ih (N - 1) (by omega)).1 x f (']' :: rest)
          (by omega) (by omega) hjx.1 (numStopB_cons _ (by decide) _)
        rw [hV]
        dsimp only
        rw [if_pos rfl]
      | cons y ys =>
        have hp1 : 1 ≤ szL (PyValList.cons y ys) := one_le_szL_cons y ys
        rw [show printItems (PyValList.cons x (PyValList.cons y ys)) ++
            (']' :: rest) =
          printVal x ++ (',' :: ' ' ::
            (printItems (PyValList.cons y ys) ++ (']' :: rest))) by
          rw [show printItems (PyValList.cons x (PyValList.cons y ys)) =
            printVal x ++ ',' :: ' ' :: printItems (PyValList.cons y ys) from rfl]
          simp]
        have hV := (ih (N - 1) (by omega)).1 x f
          (',' :: ' ' :: (printItems (PyValList.cons y ys) ++ (']' :: rest)))
          (by omega) (by omega) hjx.1 (numStopB_cons _ (by decide) _)
        rw [hV]
        dsimp only
        rw [if_neg (by decide), if_pos rfl]
        rw [if_pos rfl]
        have hL := (ih (N - 1) (by omega)).2.1 (PyValList.cons y ys) f rest
          (by
            have : szL (PyValList.cons y ys) = szV y + szL ys + 1 := rfl
            omega)
          (by
            have : szL (PyValList.cons y ys) = szV y + szL ys + 1 := rfl
            omega)
          hjx.2 (fun hcon => PyValList.noConfusion hcon)
        rw [hL]
  · -- dict entries
    intro kvs fuel rest hN hfuel hj hne
    cases kvs with
    | nil => exact absurd rfl hne
    | cons k v tail =>
      obtain ⟨f, rfl⟩ : ∃ f, fuel = f + 1 := by
        have := one_le_szD_cons k v tail
        cases fuel with
        | zero => omega
        | succ f => exact ⟨f, rfl⟩
      have hszc : szD (PyValDict.cons k v tail) = szV v + szD tail + 1 := rfl
      have hNpos : 1 ≤ N := le_trans (one_le_szD_cons k v tail) hN
      have hjparts : strOkB k = true ∧ jsonableV v = true ∧
          jsonableD tail = true := by
        have hjc : (strOkB k && !containsKeyD k tail && jsonableV v &&
          jsonableD tail) = true := hj
        rw [Bool.and_eq_true, Bool.and_eq_true, Bool.and_eq_true] at hjc
        exact ⟨hjc.1.1.1, hjc.1.2, hjc.2⟩
      have hkok : ∀ c ∈ k.data, c.toNat < 65536 := by
        have hsj := hjparts.1
        rw [strOkB, List.all_eq_true] at hsj
        intro c hc
        simpa using hsj c hc
      have hszVv := one_le_szV v
      rw [parseEntries.eq_def]
      dsimp only
      cases tail with
      | nil =>
        have hd0 : szD PyValDict.nil = 0 := rfl
        rw [show printEntries (PyValDict.cons k v PyValDict.nil) ++
            (rbChar :: rest) =
          qChar :: (escList k.data ++
            (qChar :: (':' :: ' ' :: (printVal v ++ (rbChar :: rest))))) by
          rw [show printEntries (PyValDict.cons k v PyValDict.nil) =
            printString k ++ (':' :: ' ' :: printVal v) from rfl, printString]
          simp]
        dsimp only
        rw [if_pos rfl, parseStrBody_escList k.data _ hkok]
        dsimp only
        rw [if_pos rfl]
        rw [if_pos rfl]
        have hV := (ih (N - 1) (by omega)).1 v f (rbChar :: rest)
          (by omega) (by omega) hjparts.2.1 (numStopB_cons _ (by decide) _)
        rw [hV]
        dsimp only
        rw [if_pos rfl]
      | cons k2 v2 kvs2 =>
        have hp1 : 1 ≤ szD (PyValDict.cons k2 v2 kvs2) := one_le_szD_cons k2 v2 kvs2
        rw [show printEntries (PyValDict.cons k v (PyValDict.cons k2 v2 kvs2)) ++
            (rbChar :: rest) =
          qChar :: (escList k.data ++
            (qChar :: (':' :: ' ' :: (printVal v ++ (',' :: ' ' ::
              (printEntries (PyValDict.cons k2 v2 kvs2) ++
                (rbChar :: rest))))))) by
          rw [show printEntries (PyValDict.cons k v (PyValDict.cons k2 v2 kvs2)) =
            printString k ++ (':' :: ' ' :: printVal v) ++ ',' :: ' ' ::
              printEntries (PyValDict.cons k2 v2 kvs2) from rfl, printString]
          simp]
        dsimp only
        rw [if_pos rfl, parseStrBody_escList k.data _ hkok]
        dsimp only
        rw [if_pos rfl]
        rw [if_pos rfl]
        have hV := (ih (N - 1) (by omega)).1 v f
          (',' :: ' ' :: (printEntries (PyValDict.cons k2 v2 kvs2) ++
            (rbChar :: rest)))
          (by omega) (by omega) hjparts.2.1 (numStopB_cons _ (by decide) _)
        rw [hV]
        dsimp only
        rw [if_neg (by decide), if_pos rfl]
        rw [if_pos rfl]
        have hD := (ih (N - 1) (by omega)).2.2 (PyValDict.cons k2 v2 kvs2) f rest
          (by
            have : szD (PyValDict.cons k2 v2 kvs2) = szV v2 + szD kvs2 + 1 := rfl
            omega)
          (by
            have : szD (PyValDict.cons k2 v2 kvs2) = szV v2 + szD kvs2 + 1 := rfl
            omega)
          (by
            have hjt : jsonableD (PyValDict.cons k v
              (PyValDict.cons k2 v2 kvs2)) = true := hj
            have hjc : (strOkB k && !containsKeyD k (PyValDict.cons k2 v2 kvs2) &&
              jsonableV v && jsonableD (PyValDict.cons k2 v2 kvs2)) = true := hjt
            rw [Bool.and_eq_true, Bool.and_eq_true, Bool.and_eq_true] at hjc
            exact hjc.2)
          (fun hcon => PyValDict.noConfusion hcon)
        rw [hD]

mutual
theorem szV_le_len : ∀ v : PyVal, szV v ≤ (printVal v).length
  | .vStr s => by
    obtain ⟨c, cs, hcs, _⟩ := printVal_head_ne (.vStr s)
    rw [show szV (PyVal.vStr s) = 1 from rfl, hcs]
    simp
  | .vInt n => by
    obtain ⟨c, cs, hcs, _⟩ := printVal_head_ne (.vInt n)
    rw [show szV (PyVal.vInt n) = 1 from rfl, hcs]
    simp
  | .vBool b => by
    obtain ⟨c, cs, hcs, _⟩ := printVal_head_ne (.vBool b)
    rw [show szV (PyVal.vBool b) = 1 from rfl, hcs]
    simp
  | .vFloat q => by
    obtain ⟨c, cs, hcs, _⟩ := printVal_head_ne (.vFloat q)
    rw [show szV (PyVal.vFloat q) = 1 from rfl, hcs]
    simp
  | .vNone => by
    rw [show szV PyVal.vNone = 1 from rfl]
    simp [printVal]
  | .vList xs => by
    have h := szL_le_len xs
    rw [show szV (PyVal.vList xs) = szL xs + 1 from rfl,
      show printVal (PyVal.vList xs) = '[' :: (printItems xs ++ [']']) from rfl]
    simp only [List.length_cons, List.length_append, List.length_singleton]
    omega
  | .vDict kvs => by
    have h := szD_le_len kvs
    rw [show szV (PyVal.vDict kvs) = szD kvs + 1 from rfl,
      show printVal (PyVal.vDict kvs) = lbChar :: (printEntries kvs ++ [rbChar])
        from rfl]
    simp only [List.length_cons, List.length_append, List.length_singleton]
    omega
theorem szL_le_len : ∀ xs : PyValList, szL xs ≤ (printItems xs).length + 1
  | .nil => by
    rw [show szL PyValList.nil = 0 from rfl]
    omega
  | .cons x .nil => by
    have h := szV_le_len x
    rw [show szL (PyValList.cons x PyValList.nil) = szV x + 0 + 1 from rfl,
      show printItems (PyValList.cons x PyValList.nil) = printVal x from rfl]
    omega
  | .cons x (.cons y ys) => by
    have h1 := szV_le_len x
    have h2 := szL_le_len (PyValList.cons y ys)
    rw [show szL (PyValList.cons x (PyValList.cons y ys)) =
        szV x + szL (PyValList.cons y ys) + 1 from rfl,
      show printItems (PyValList.cons x (PyValList.cons y ys)) =
        printVal x ++ ',' :: ' ' :: printItems (PyValList.cons y ys) from rfl]
    simp only [List.length_append, List.length_cons]
    omega
theorem szD_le_len : ∀ kvs : PyValDict, szD kvs ≤ (printEntries kvs).length + 1
  | .nil => by
    rw [show szD PyValDict.nil = 0 from rfl]
    omega
  | .cons k v .nil => by
    have h := szV_le_len v
    rw [show szD (PyValDict.cons k v PyValDict.nil) = szV v + 0 + 1 from rfl,
      show printEntries (PyValDict.cons k v PyValDict.nil) =
        printString k ++ (':' :: ' ' :: printVal v) from rfl]
    simp only [List.length_append, List.length_cons]
    omega
  | .cons k v (.cons k2 v2 kvs2) => by
    have h1 := szV_le_len v
    have h2 := szD_le_len (PyValDict.cons k2 v2 kvs2)
    rw [show szD (PyValDict.cons k v (PyValDict.cons k2 v2 kvs2)) =
        szV v + szD (PyValDict.cons k2 v2 kvs2) + 1 from rfl,
      show printEntries (PyValDict.cons k v (PyValDict.cons k2 v2 kvs2)) =
        printString k ++ (':' :: ' ' :: printVal v) ++ ',' :: ' ' ::
          printEntries (PyValDict.cons k2 v2 kvs2) from rfl]
    simp only [List.length_append, List.length_cons]
    omega
end

/-- Round trip of the JSON model: parsing a printed value returns the
value, for every serialisable value.  This is the `json.loads(json.dumps(x))
== x` contract the store relies on for structured columns. -/
theorem loads_dumps (v : PyVal) (hj : jsonableV v = true) :
    loads (dumps v) = some v := by
  have hfuel : szV v ≤ (dumps v).length + 1 := by
    have h := szV_le_len v
    have hlen : (dumps v).length = (printVal v).length := rfl
    omega
  have hmain := (parse_print_all (szV v)).1 v ((dumps v).length + 1) []
    le_rfl hfuel hj rfl
  rw [List.append_nil] at hmain
  rw [loads]
  rw [show (dumps v).data = printVal v from rfl, hmain]

/-! ### Evaluation lemmas for the timer layer -/

lemma validateAttr_timer (st : Store) (hsch : st.schema = timerSchema) :
    validateAttr st "duration" = .ok .tFloat ∧
    validateAttr st "start_time" = .ok .tFloat ∧
    validateAttr st "end_time" = .ok .tFloat ∧
    validateAttr st "status" = .ok .tStr ∧
    validateAttr st "name" = .ok .tStr := by
  refine ⟨?_, ?_, ?_, ?_, ?_⟩ <;> · simp only [validateAttr, hsch]; rfl

lemma attrIdx_timer (st : Store) (hsch : st.schema = timerSchema) :
    attrIdx st.schema "duration" = 0 ∧ attrIdx st.schema "start_time" = 1 ∧
    attrIdx st.schema "end_time" = 2 ∧ attrIdx st.schema "status" = 3 ∧
    attrIdx st.schema "name" = 4 := by
  rw [hsch]
  exact ⟨rfl, rfl, rfl, rfl, rfl⟩

lemma getAttr_timer (st : Store) (id : Int) (d s e : ℚ) (stat nm : String)
    (hsch : st.schema = timerSchema)
    (hfind : findRow st id = some (id, timerCells d s e stat nm)) :
    getAttr st id "duration" = .ok (.vFloat d) ∧
    getAttr st id "start_time" = .ok (.vFloat s) ∧
    getAttr st id "end_time" = .ok (.vFloat e) ∧
    getAttr st id "status" = .ok (.vStr stat) ∧
    getAttr st id "name" = .ok (.vStr nm) := by
  obtain ⟨h1, h2, h3, h4, h5⟩ := validateAttr_timer st hsch
  obtain ⟨i1, i2, i3, i4, i5⟩ := attrIdx_timer st hsch
  refine ⟨?_, ?_, ?_, ?_, ?_⟩
  · simp only [getAttr, h1, i1, hfind, bind, Except.bind, decodeValue]
    rfl
  · simp only [getAttr, h2, i2, hfind, bind, Except.bind, decodeValue]
    rfl
  · simp only [getAttr, h3, i3, hfind, bind, Except.bind, decodeValue]
    rfl
  · simp only [getAttr, h4, i4, hfind, bind, Except.bind, decodeValue]
    rfl
  · simp only [getAttr, h5, i5, hfind, bind, Except.bind, decodeValue]
    rfl

lemma getAttr_absent (st : Store) (id : Int) (attr : String) (ty : PyType)
    (hval : validateAttr st attr = .ok ty)
    (hfind : findRow st id = none) :
    getAttr st id attr = .error (.valueError ("No item with id " ++ toString id)) := by
  simp only [getAttr, hval, hfind, bind, Except.bind]
  rfl

lemma isTimerExists_pos_found (st : Store) (id : Int)
    (hsch : st.schema = timerSchema) (hid : 0 < id)
    (d s e : ℚ) (stat nm : String)
    (hfind : findRow st id = some (id, timerCells d s e stat nm)) :
    isTimerExists st id = .ok true := by
  rw [isTimerExists, if_neg (by omega)]
  rw [(getAttr_timer st id d s e stat nm hsch hfind).2.2.2.2]

lemma isTimerExists_pos_absent (st : Store) (id : Int)
    (hsch : st.schema = timerSchema) (hid : 0 < id)
    (hfind : findRow st id = none) :
    isTimerExists st id = .ok false := by
  rw [isTimerExists, if_neg (by omega)]
  rw [getAttr_absent st id "name" .tStr (validateAttr_timer st hsch).2.2.2.2 hfind]

lemma updCell_schema (st : Store) (id : Int) (i : Nat) (c : SqlVal) :
    (updCell st id i c).schema = st.schema := rfl

lemma updCell_nextId (st : Store) (id : Int) (i : Nat) (c : SqlVal) :
    (updCell st id i c).nextId = st.nextId := rfl

lemma findRow_updCell (st : Store) (id : Int) (i : Nat) (c : SqlVal)
    (r : Int × List SqlVal) (hfind : findRow st id = some r) :
    findRow (updCell st id i c) id = some (r.1, r.2.set i c) := by
  have hpf : (fun x : Int × List SqlVal => x.1 == id) ∘
      (fun x : Int × List SqlVal =>
        if x.1 == id then (x.1, x.2.set i c) else x) =
      fun x : Int × List SqlVal => x.1 == id := by
    funext x
    simp only [Function.comp_apply]
    split <;> rfl
  have hbeq : (r.1 == id) = true := by
    have := List.find?_some hfind
    exact this
  have hfind2 : List.find? (fun x : Int × List SqlVal => x.1 == id) st.rows =
      some r := hfind
  show List.find? (fun x : Int × List SqlVal => x.1 == id)
      (st.rows.map (fun x : Int × List SqlVal =>
        if x.1 == id then (x.1, x.2.set i c) else x)) = some (r.1, r.2.set i c)
  rw [List.find?_map, hpf, hfind2]
  show some (if (r.1 == id) = true then (r.1, r.2.set i c) else r) = _
  rw [if_pos hbeq]

lemma setAttr_timer_eval (st : Store) (id : Int)
    (hsch : st.schema = timerSchema)
    (r : Int × List SqlVal) (hfind : findRow st id = some r) :
    (∀ v : String, setAttr st id "status" (.vStr v) =
      .ok (updCell st id 3 (.sText v))) ∧
    (∀ q : ℚ, setAttr st id "duration" (.vFloat q) =
      .ok (updCell st id 0 (.sReal q))) ∧
    (∀ q : ℚ, setAttr st id "start_time" (.vFloat q) =
      .ok (updCell st id 1 (.sReal q))) ∧
    (∀ q : ℚ, setAttr st id "end_time" (.vFloat q) =
      .ok (updCell st id 2 (.sReal q))) := by
  obtain ⟨h1, h2, h3, h4, _⟩ := validateAttr_timer st hsch
  obtain ⟨i1, i2, i3, i4, _⟩ := attrIdx_timer st hsch
  refine ⟨?_, ?_, ?_, ?_⟩
  · intro v
    simp only [setAttr, encodeValue, h4, hfind, i4, bind, Except.bind]
    rfl
  · intro q
    simp only [setAttr, encodeValue, h1, hfind, i1, bind, Except.bind]
    rfl
  · intro q
    simp only [setAttr, encodeValue, h2, hfind, i2, bind, Except.bind]
    rfl
  · intro q
    simp only [setAttr, encodeValue, h3, hfind, i3, bind, Except.bind]
    rfl

lemma timerCells_set3 (d s e : ℚ) (stat nm v : String) :
    (timerCells d s e stat nm).set 3 (.sText v) = timerCells d s e v nm := rfl

lemma timerCells_set0 (d s e : ℚ) (stat nm : String) (q : ℚ) :
    (timerCells d s e stat nm).set 0 (.sReal q) = timerCells q s e stat nm := rfl

lemma timerCells_set1 (d s e : ℚ) (stat nm : String) (q : ℚ) :
    (timerCells d s e stat nm).set 1 (.sReal q) = timerCells d q e stat nm := rfl

lemma timerCells_set2 (d s e : ℚ) (stat nm : String) (q : ℚ) :
    (timerCells d s e stat nm).set 2 (.sReal q) = timerCells d s q stat nm := rfl

lemma vStr_beq (a b : String) : (PyVal.vStr a == PyVal.vStr b) = (a == b) := by
  by_cases h : a = b
  · subst h
    simp
  · simp [h]

lemma isTimerRunning_run (st : Store) (id : Int) (d s e : ℚ)
    (stat nm : String) (hsch : st.schema = timerSchema) (hid : 0 < id)
    (hfind : findRow st id = some (id, timerCells d s e stat nm))
    (hinv : e - d = s) :
    isTimerRunning st id = .ok (stat == RUNNING) := by
  obtain ⟨g1, g2, g3, g4, _⟩ := getAttr_timer st id d s e stat nm hsch hfind
  have hex := isTimerExists_pos_found st id hsch hid d s e stat nm hfind
  simp only [isTimerRunning, hex, g1, g2, g3, g4, bind, Except.bind, asFloat]
  rw [if_neg (by decide)]
  rw [if_neg (by simp [hinv])]
  show Except.ok (PyVal.vStr stat == PyVal.vStr RUNNING) = _
  rw [vStr_beq]

lemma isTimerRunning_mismatch (st : Store) (id : Int) (d s e : ℚ)
    (stat nm : String) (hsch : st.schema = timerSchema) (hid : 0 < id)
    (hfind : findRow st id = some (id, timerCells d s e stat nm))
    (hinv : e - d ≠ s) :
    isTimerRunning st id = .error (.runtimeError
      "The timer start and end times do not match the duration.") := by
  obtain ⟨g1, g2, g3, g4, _⟩ := getAttr_timer st id d s e stat nm hsch hfind
  have hex := isTimerExists_pos_found st id hsch hid d s e stat nm hfind
  simp only [isTimerRunning, hex, g1, g2, g3, g4, bind, Except.bind, asFloat]
  rw [if_neg (by decide)]
  rw [if_pos (by simpa using hinv)]
  rfl

lemma isTimerPaused_good (st : Store) (id : Int) (d : ℚ) (nm : String)
    (hsch : st.schema = timerSchema) (hid : 0 < id)
    (hfind : findRow st id = some (id,
      timerCells d NOT_SET NOT_SET PAUSED nm))
    (hd : 0 ≤ d) :
    isTimerPaused st id = .ok true := by
  obtain ⟨g1, g2, g3, g4, _⟩ :=
    getAttr_timer st id d NOT_SET NOT_SET PAUSED nm hsch hfind
  have hex := isTimerExists_pos_found st id hsch hid d NOT_SET NOT_SET
    PAUSED nm hfind
  simp only [isTimerPaused, hex, g1, g2, g3, g4, bind, Except.bind, asFloat]
  rw [if_neg (by decide)]
  rw [if_neg (by simp)]
  rw [if_neg (by simpa using not_lt.mpr hd)]
  rw [if_neg (by simp [pyEq])]
  rw [if_neg (by simp [pyEq])]
  rfl

lemma isTimerPaused_wrong_status (st : Store) (id : Int) (d s e : ℚ)
    (stat nm : String) (hsch : st.schema = timerSchema) (hid : 0 < id)
    (hfind : findRow st id = some (id, timerCells d s e stat nm))
    (hstat : stat ≠ PAUSED) :
    isTimerPaused st id = .error .assertionError := by
  obtain ⟨g1, g2, g3, g4, _⟩ := getAttr_timer st id d s e stat nm hsch hfind
  have hex := isTimerExists_pos_found st id hsch hid d s e stat nm hfind
  simp only [isTimerPaused, hex, g1, g2, g3, g4, bind, Except.bind, asFloat]
  rw [if_neg (by decide)]
  rw [if_pos (by rw [vStr_beq]; simp [hstat])]
  rfl

lemma isTimerPaused_neg_duration (st : Store) (id : Int) (d s e : ℚ)
    (nm : String) (hsch : st.schema = timerSchema) (hid : 0 < id)
    (hfind : findRow st id = some (id, timerCells d s e PAUSED nm))
    (hd : d < 0) :
    isTimerPaused st id = .error .assertionError := by
  obtain ⟨g1, g2, g3, g4, _⟩ := getAttr_timer st id d s e PAUSED nm hsch hfind
  have hex := isTimerExists_pos_found st id hsch hid d s e PAUSED nm hfind
  simp only [isTimerPaused, hex, g1, g2, g3, g4, bind, Except.bind, asFloat]
  rw [if_neg (by decide)]
  rw [if_neg (by simp)]
  rw [if_pos (by simpa using hd)]
  rfl

lemma markTimerFinished_absent (st : Store) (id : Int)
    (hsch : st.schema = timerSchema) (hid : 0 < id)
    (hfind : findRow st id = none) :
    markTimerFinished st id = .ok st := by
  have hex := isTimerExists_pos_absent st id hsch hid hfind
  simp only [markTimerFinished, hex, bind, Except.bind]
  rfl

lemma markTimerFinished_already (st : Store) (id : Int) (d s e : ℚ)
    (nm : String) (hsch : st.schema = timerSchema) (hid : 0 < id)
    (hfind : findRow st id = some (id, timerCells d s e FINISHED nm)) :
    markTimerFinished st id = .ok st := by
  obtain ⟨_, _, _, g4, _⟩ :=
    getAttr_timer st id d s e FINISHED nm hsch hfind
  have hex := isTimerExists_pos_found st id hsch hid d s e FINISHED nm hfind
  simp only [markTimerFinished, hex, g4, bind, Except.bind]
  rw [if_neg (by decide)]
  rw [if_pos (by simp)]
  rfl

lemma markTimerFinished_marks (st : Store) (id : Int) (d s e : ℚ)
    (stat nm : String) (hsch : st.schema = timerSchema) (hid : 0 < id)
    (hfind : findRow st id = some (id, timerCells d s e stat nm))
    (hstat : stat ≠ FINISHED) :
    markTimerFinished st id = .ok (finishedStore st id) := by
  obtain ⟨_, _, _, g4, _⟩ := getAttr_timer st id d s e stat nm hsch hfind
  have hex := isTimerExists_pos_found st id hsch hid d s e stat nm hfind
  have hset := (setAttr_timer_eval st id hsch _ hfind).1 FINISHED
  simp only [markTimerFinished, hex, g4, bind, Except.bind]
  rw [if_neg (by decide)]
  rw [if_neg (by rw [vStr_beq]; simp [hstat])]
  exact hset

lemma isTimerExists_nonpos (st : Store) (id : Int) (hid : id ≤ 0) :
    isTimerExists st id =
      .error (.valueError "Timer ID must be a positive integer.") := by
  rw [isTimerExists, if_pos hid]

lemma pauseTimer_eval (st : Store) (id : Int) (d s e now : ℚ) (nm : String)
    (hsch : st.schema = timerSchema) (hid : 0 < id)
    (hfind : findRow st id = some (id, timerCells d s e RUNNING nm))
    (hinv : e - d = s) :
    pauseTimer st id now = .ok (pausedStore st id e now) := by
  have hex := isTimerExists_pos_found st id hsch hid d s e RUNNING nm hfind
  have hrun : isTimerRunning st id = .ok true := by
    rw [isTimerRunning_run st id d s e RUNNING nm hsch hid hfind hinv]
    rw [show (RUNNING == RUNNING) = true by decide]
  have g3 := (getAttr_timer st id d s e RUNNING nm hsch hfind).2.2.1
  have h0 := (setAttr_timer_eval st id hsch _ hfind).2.1 (e - now)
  set st1 := updCell st id 0 (.sReal (e - now)) with hst1
  have hsch1 : st1.schema = timerSchema := by
    rw [hst1, updCell_schema, hsch]
  have hfind1 : findRow st1 id =
      some (id, timerCells (e - now) s e RUNNING nm) := by
    have := findRow_updCell st id 0 (.sReal (e - now)) _ hfind
    rw [hst1]
    simpa [timerCells_set0] using this
  have h1 := (setAttr_timer_eval st1 id hsch1 _ hfind1).2.2.1 NOT_SET
  set st2 := updCell st1 id 1 (.sReal NOT_SET) with hst2
  have hsch2 : st2.schema = timerSchema := by
    rw [hst2, updCell_schema, hsch1]
  have hfind2 : findRow st2 id =
      some (id, timerCells (e - now) NOT_SET e RUNNING nm) := by
    have := findRow_updCell st1 id 1 (.sReal NOT_SET) _ hfind1
    rw [hst2]
    simpa [timerCells_set1] using this
  have h2 := (setAttr_timer_eval st2 id hsch2 _ hfind2).2.2.2 NOT_SET
  set st3 := updCell st2 id 2 (.sReal NOT_SET) with hst3
  have hsch3 : st3.schema = timerSchema := by
    rw [hst3, updCell_schema, hsch2]
  have hfind3 : findRow st3 id =
      some (id, timerCells (e - now) NOT_SET NOT_SET RUNNING nm) := by
    have := findRow_updCell st2 id 2 (.sReal NOT_SET) _ hfind2
    rw [hst3]
    simpa [timerCells_set2] using this
  have h3 := (setAttr_timer_eval st3 id hsch3 _ hfind3).1 PAUSED
  simp only [pauseTimer, hex, hrun, g3, bind, Except.bind, asFloat]
  rw [if_neg (by decide), if_neg (by decide)]
  simp only [h0, ← hst1, h1, ← hst2, h2, ← hst3, h3, bind, Except.bind]
  rfl

lemma resumeTimer_ok (st : Store) (id : Int) (d now : ℚ) (nm : String)
    (hsch : st.schema = timerSchema) (hid : 0 < id)
    (hfind : findRow st id = some (id, timerCells d NOT_SET NOT_SET PAUSED nm))
    (hd : 0 ≤ d) :
    resumeTimer st id now = .ok (resumedStore st id d now) := by
  have hex := isTimerExists_pos_found st id hsch hid d NOT_SET NOT_SET
    PAUSED nm hfind
  have hpg := isTimerPaused_good st id d nm hsch hid hfind hd
  have g1 := (getAttr_timer st id d NOT_SET NOT_SET PAUSED nm hsch hfind).1
  have h1 := (setAttr_timer_eval st id hsch _ hfind).2.2.1 now
  set st1 := updCell st id 1 (.sReal now) with hst1
  have hsch1 : st1.schema = timerSchema := by
    rw [hst1, updCell_schema, hsch]
  have hfind1 : findRow st1 id =
      some (id, timerCells d now NOT_SET PAUSED nm) := by
    have := findRow_updCell st id 1 (.sReal now) _ hfind
    rw [hst1]
    simpa [timerCells_set1] using this
  have h2 := (setAttr_timer_eval st1 id hsch1 _ hfind1).2.2.2 (now + d)
  set st2 := updCell st1 id 2 (.sReal (now + d)) with hst2
  have hsch2 : st2.schema = timerSchema := by
    rw [hst2, updCell_schema, hsch1]
  have hfind2 : findRow st2 id =
      some (id, timerCells d now (now + d) PAUSED nm) := by
    have := findRow_updCell st1 id 2 (.sReal (now + d)) _ hfind1
    rw [hst2]
    simpa [timerCells_set2] using this
  have h3 := (setAttr_timer_eval st2 id hsch2 _ hfind2).1 RUNNING
  simp only [resumeTimer, hex, hpg, g1, bind, Except.bind, asFloat]
  rw [if_neg (by decide), if_neg (by decide), if_neg (by simpa using not_lt.mpr hd)]
  simp only [h1, ← hst1, h2, ← hst2, h3, bind, Except.bind]
  rfl

lemma resumeTimer_neg_dur (st : Store) (id : Int) (d s e now : ℚ)
    (nm : String) (hsch : st.schema = timerSchema) (hid : 0 < id)
    (hfind : findRow st id = some (id, timerCells d s e PAUSED nm))
    (hd : d < 0) :
    resumeTimer st id now = .error .assertionError := by
  have hex := isTimerExists_pos_found st id hsch hid d s e PAUSED nm hfind
  have hp := isTimerPaused_neg_duration st id d s e nm hsch hid hfind hd
  simp only [resumeTimer, hex, hp, bind, Except.bind]
  rw [if_neg (by decide)]

lemma resumeTimer_not_paused (st : Store) (id : Int) (d s e now : ℚ)
    (stat nm : String) (hsch : st.schema = timerSchema) (hid : 0 < id)
    (hfind : findRow st id = some (id, timerCells d s e stat nm))
    (hstat : stat ≠ PAUSED) :
    resumeTimer st id now = .error .assertionError := by
  have hex := isTimerExists_pos_found st id hsch hid d s e stat nm hfind
  have hp := isTimerPaused_wrong_status st id d s e stat nm hsch hid hfind hstat
  simp only [resumeTimer, hex, hp, bind, Except.bind]
  rw [if_neg (by decide)]

lemma createTimer_ok (st : Store) (name : String) (dur : Int) (now : ℚ)
    (hsch : st.schema = timerSchema) (hdur : 0 < dur) (hname : name ≠ "")
    (hlen : name.length ≤ 100) :
    createTimer st name dur now =
      .ok (createdStore st name dur now, st.nextId) := by
  obtain ⟨sch, nid, rows⟩ := st
  have hsch2 : sch = timerSchema := hsch
  subst hsch2
  rw [createTimer, if_neg (by omega), if_neg hname, if_neg (by omega)]
  rfl

lemma findRow_pausedStore (st : Store) (id : Int) (d s e now : ℚ)
    (nm : String)
    (hfind : findRow st id = some (id, timerCells d s e RUNNING nm)) :
    findRow (pausedStore st id e now) id =
      some (id, timerCells (e - now) NOT_SET NOT_SET PAUSED nm) := by
  have h1 := findRow_updCell st id 0 (.sReal (e - now)) _ hfind
  rw [show ((id, timerCells d s e RUNNING nm).1,
    (id, timerCells d s e RUNNING nm).2.set 0 (SqlVal.sReal (e - now))) =
    (id, timerCells (e - now) s e RUNNING nm) by rw [timerCells_set0]] at h1
  have h2 := findRow_updCell _ id 1 (.sReal NOT_SET) _ h1
  rw [show ((id, timerCells (e - now) s e RUNNING nm).1,
    (id, timerCells (e - now) s e RUNNING nm).2.set 1 (SqlVal.sReal NOT_SET)) =
    (id, timerCells (e - now) NOT_SET e RUNNING nm) by rw [timerCells_set1]] at h2
  have h3 := findRow_updCell _ id 2 (.sReal NOT_SET) _ h2
  rw [show ((id, timerCells (e - now) NOT_SET e RUNNING nm).1,
    (id, timerCells (e - now) NOT_SET e RUNNING nm).2.set 2
      (SqlVal.sReal NOT_SET)) =
    (id, timerCells (e - now) NOT_SET NOT_SET RUNNING nm) by
      rw [timerCells_set2]] at h3
  have h4 := findRow_updCell _ id 3 (.sText PAUSED) _ h3
  rw [show ((id, timerCells (e - now) NOT_SET NOT_SET RUNNING nm).1,
    (id, timerCells (e - now) NOT_SET NOT_SET RUNNING nm).2.set 3
      (SqlVal.sText PAUSED)) =
    (id, timerCells (e - now) NOT_SET NOT_SET PAUSED nm) by
      rw [timerCells_set3]] at h4
  exact h4

lemma findRow_resumedStore (st : Store) (id : Int) (d now : ℚ) (nm : String)
    (hfind : findRow st id = some (id, timerCells d NOT_SET NOT_SET PAUSED nm)) :
    findRow (resumedStore st id d now) id =
      some (id, timerCells d now (now + d) RUNNING nm) := by
  have h1 := findRow_updCell st id 1 (.sReal now) _ hfind
  rw [show ((id, timerCells d NOT_SET NOT_SET PAUSED nm).1,
    (id, timerCells d NOT_SET NOT_SET PAUSED nm).2.set 1 (SqlVal.sReal now)) =
    (id, timerCells d now NOT_SET PAUSED nm) by rw [timerCells_set1]] at h1
  have h2 := findRow_updCell _ id 2 (.sReal (now + d)) _ h1
  rw [show ((id, timerCells d now NOT_SET PAUSED nm).1,
    (id, timerCells d now NOT_SET PAUSED nm).2.set 2 (SqlVal.sReal (now + d))) =
    (id, timerCells d now (now + d) PAUSED nm) by rw [timerCells_set2]] at h2
  have h3 := findRow_updCell _ id 3 (.sText RUNNING) _ h2
  rw [show ((id, timerCells d now (now + d) PAUSED nm).1,
    (id, timerCells d now (now + d) PAUSED nm).2.set 3 (SqlVal.sText RUNNING)) =
    (id, timerCells d now (now + d) RUNNING nm) by rw [timerCells_set3]] at h3
  exact h3

lemma findRow_finishedStore (st : Store) (id : Int) (d s e : ℚ)
    (stat nm : String)
    (hfind : findRow st id = some (id, timerCells d s e stat nm)) :
    findRow (finishedStore st id) id =
      some (id, timerCells d s e FINISHED nm) := by
  have h1 := findRow_updCell st id 3 (.sText FINISHED) _ hfind
  rw [show ((id, timerCells d s e stat nm).1,
    (id, timerCells d s e stat nm).2.set 3 (SqlVal.sText FINISHED)) =
    (id, timerCells d s e FINISHED nm) by rw [timerCells_set3]] at h1
  exact h1

lemma findRow_createdStore (st : Store) (name : String) (dur : Int) (now : ℚ)
    (hwf : wfStore st = true) :
    findRow (createdStore st name dur now) st.nextId =
      some (st.nextId,
        timerCells (dur : ℚ) now (now + (dur : ℚ)) RUNNING name) := by
  have hnone : List.find? (fun r : Int × List SqlVal => r.1 == st.nextId)
      st.rows = none := by
    rw [List.find?_eq_none]
    intro r hr
    have hall : st.rows.all
        (fun r => decide (0 < r.1) && decide (r.1 < st.nextId)) = true := by
      simp only [wfStore, Bool.and_eq_true] at hwf
      exact hwf.1.2
    rw [List.all_eq_true] at hall
    have := hall r hr
    rw [Bool.and_eq_true, decide_eq_true_eq, decide_eq_true_eq] at this
    simp only [beq_iff_eq]
    omega
  show List.find? (fun r : Int × List SqlVal => r.1 == st.nextId)
    (st.rows ++ [(st.nextId,
      timerCells (dur : ℚ) now (now + (dur : ℚ)) RUNNING name)]) = _
  rw [List.find?_append, hnone]
  simp [List.find?_cons]

/-- C10: every TimerManager operation that takes a timer id — the
existence check, running/paused checks, pause, resume, remove,
markFinished and get-info — raises `ValueError` for a non-positive id
instead of treating it as a nonexistent timer or returning False. -/
theorem c10_nonpositive_id_rejected (st : Store) (id : Int) (now : ℚ)
    (hid : id ≤ 0) :
    isTimerExists st id =
      .error (.valueError "Timer ID must be a positive integer.") ∧
    isTimerRunning st id =
      .error (.valueError "Timer ID must be a positive integer.") ∧
    isTimerPaused st id =
      .error (.valueError "Timer ID must be a positive integer.") ∧
    pauseTimer st id now =
      .error (.valueError "Timer ID must be a positive integer.") ∧
    resumeTimer st id now =
      .error (.valueError "Timer ID must be a positive integer.") ∧
    rmTimer st id =
      .error (.valueError "Timer ID must be a positive integer.") ∧
    markTimerFinished st id =
      .error (.valueError "Timer ID must be a positive integer.") ∧
    getTimerInfo st id =
      .error (.valueError "Timer ID must be a positive integer.") := by
  have hex := isTimerExists_nonpos st id hid
  refine ⟨hex, ?_, ?_, ?_, ?_, ?_, ?_, ?_⟩ <;>
  · simp only [isTimerRunning, isTimerPaused, pauseTimer, resumeTimer,
      rmTimer, markTimerFinished, getTimerInfo, hex, bind, Except.bind]

/-- C10 witness: id 0 on the concrete store. -/
theorem c10_nonpositive_id_rejected_witness :
    (0 : Int) ≤ 0 ∧
    isTimerExists demoRun 0 =
      .error (.valueError "Timer ID must be a positive integer.") ∧
    markTimerFinished demoRun 0 =
      .error (.valueError "Timer ID must be a positive integer.") := by
  have h := c10_nonpositive_id_rejected demoRun 0 0 le_rfl
  exact ⟨le_rfl, h.1, h.2.2.2.2.2.2.1⟩

/-- C3: for a positive id on a timer store, `mark_timer_finished` never
raises: it leaves the store unchanged when the id is absent or the timer
is already FINISHED, otherwise it updates exactly the status cell of that
row to FINISHED (schema, counter and all other rows and cells unchanged),
and calling it twice leaves the same state as calling it once. -/
theorem c3_markFinished_idempotent (st : Store) (id : Int)
    (hsch : st.schema = timerSchema) (hid : 0 < id) :
    (findRow st id = none → markTimerFinished st id = .ok st) ∧
    (∀ d s e nm, findRow st id = some (id, timerCells d s e FINISHED nm) →
      markTimerFinished st id = .ok st) ∧
    (∀ d s e stat nm, stat ≠ FINISHED →
      findRow st id = some (id, timerCells d s e stat nm) →
      markTimerFinished st id = .ok (finishedStore st id) ∧
      (finishedStore st id).schema = st.schema ∧
      (finishedStore st id).nextId = st.nextId ∧
      findRow (finishedStore st id) id =
        some (id, timerCells d s e FINISHED nm) ∧
      markTimerFinished (finishedStore st id) id = .ok (finishedStore st id)) ∧
    ((findRow st id = none ∨ ∃ d s e stat nm,
        findRow st id = some (id, timerCells d s e stat nm)) →
      ∃ st2, markTimerFinished st id = .ok st2 ∧
        markTimerFinished st2 id = .ok st2) := by
  have habsent := fun h => markTimerFinished_absent st id hsch hid h
  have hmarks : ∀ d s e stat nm, stat ≠ FINISHED →
      findRow st id = some (id, timerCells d s e stat nm) →
      markTimerFinished st id = .ok (finishedStore st id) ∧
      (finishedStore st id).schema = st.schema ∧
      (finishedStore st id).nextId = st.nextId ∧
      findRow (finishedStore st id) id =
        some (id, timerCells d s e FINISHED nm) ∧
      markTimerFinished (finishedStore st id) id = .ok (finishedStore st id) := by
    intro d s e stat nm hstat hfind
    have hfind2 := findRow_finishedStore st id d s e stat nm hfind
    have hsch2 : (finishedStore st id).schema = timerSchema := by
      rw [finishedStore, updCell_schema, hsch]
    refine ⟨markTimerFinished_marks st id d s e stat nm hsch hid hfind hstat,
      rfl, rfl, hfind2, ?_⟩
    exact markTimerFinished_already (finishedStore st id) id d s e nm
      hsch2 hid hfind2
  refine ⟨habsent, ?_, hmarks, ?_⟩
  · intro d s e nm hfind
    exact markTimerFinished_already st id d s e nm hsch hid hfind
  · rintro (hnone | ⟨d, s, e, stat, nm, hfind⟩)
    · exact ⟨st, habsent hnone, habsent hnone⟩
    · by_cases hstat : stat = FINISHED
      · subst hstat
        have h1 := markTimerFinished_already st id d s e nm hsch hid hfind
        exact ⟨st, h1, h1⟩
      · obtain ⟨h1, _, _, _, h5⟩ := hmarks d s e stat nm hstat hfind
        exact ⟨finishedStore st id, h1, h5⟩

/-- C3 witness: marking the concrete RUNNING timer finished, twice. -/
theorem c3_markFinished_idempotent_witness :
    demoRun.schema = timerSchema ∧ (0 : Int) < 1 ∧
    markTimerFinished demoRun 1 = .ok (finishedStore demoRun 1) ∧
    markTimerFinished (finishedStore demoRun 1) 1 =
      .ok (finishedStore demoRun 1) := by
  have h := (c3_markFinished_idempotent demoRun 1 rfl (by norm_num)).2.2.1
    5 100 105 RUNNING "t1" (by decide) rfl
  exact ⟨rfl, by norm_num, h.1, h.2.2.2.2⟩

/-- C4: `create_timer(name, duration)` fails with `ValueError` (the spec
InvalidArgument) exactly when the duration is non-positive, the name is
empty, or the name exceeds 100 characters; for every other input it
inserts a fresh RUNNING record with `start_time = now` and
`end_time = now + duration` and returns the new id. -/
theorem c4_create_validation (st : Store) (name : String) (dur : Int)
    (now : ℚ) (hsch : st.schema = timerSchema) (hwf : wfStore st = true) :
    ((dur ≤ 0 ∨ name = "" ∨ 100 < name.length) ↔
      ∃ msg, createTimer st name dur now = .error (.valueError msg)) ∧
    (0 < dur → name ≠ "" → name.length ≤ 100 →
      createTimer st name dur now =
        .ok (createdStore st name dur now, st.nextId) ∧
      findRow (createdStore st name dur now) st.nextId =
        some (st.nextId,
          timerCells (dur : ℚ) now (now + (dur : ℚ)) RUNNING name)) := by
  constructor
  · constructor
    · intro h
      by_cases h1 : dur ≤ 0
      · exact ⟨"Duration must be a positive integer.",
          by rw [createTimer, if_pos h1]⟩
      · by_cases h2 : name = ""
        · exact ⟨"Name cannot be empty.",
            by rw [createTimer, if_neg h1, if_pos h2]⟩
        · by_cases h3 : 100 < name.length
          · exact ⟨"Name cannot exceed 100 characters.",
              by rw [createTimer, if_neg h1, if_neg h2, if_pos h3]⟩
          · rcases h with h | h | h
            · exact absurd h h1
            · exact absurd h h2
            · exact absurd h h3
    · rintro ⟨msg, hmsg⟩
      by_contra hcon
      push_neg at hcon
      obtain ⟨hd, hn, hl⟩ := hcon
      rw [createTimer_ok st name dur now hsch (by omega) hn (by omega)] at hmsg
      exact Except.noConfusion hmsg
  · intro hd hn hl
    exact ⟨createTimer_ok st name dur now hsch hd hn hl,
      findRow_createdStore st name dur now hwf⟩

/-- C4 witness: a valid creation on a fresh store and an invalid one with
an empty name. -/
theorem c4_create_validation_witness :
    (mkStore timerSchema).schema = timerSchema ∧
    wfStore (mkStore timerSchema) = true ∧
    createTimer (mkStore timerSchema) "t1" 5 100 =
      .ok (createdStore (mkStore timerSchema) "t1" 5 100, 1) ∧
    (∃ msg, createTimer (mkStore timerSchema) "" 5 100 =
      .error (.valueError msg)) := by
  have h1 := (c4_create_validation (mkStore timerSchema) "t1" 5 100 rfl
    (by decide)).2 (by norm_num) (by decide) (by decide)
  have h2 := (c4_create_validation (mkStore timerSchema) "" 5 100 rfl
    (by decide)).1.mp (Or.inr (Or.inl rfl))
  exact ⟨rfl, by decide, h1.1, h2⟩

/-- C5 (amended): `resume_timer(id)` requires state PAUSED (any other
status fails the paused-state assertion); when the stored duration is
negative it fails with the `AssertionError` raised by the
`assert duration >= 0` inside `is_timer_paused` — the explicit
negative-duration `ValueError` branch is unreachable — and never with
`ValueError`; otherwise it sets `start_time = now`,
`end_time = now + duration` and status RUNNING. -/
theorem c5_resume_behavior (st : Store) (id : Int) (now : ℚ)
    (hsch : st.schema = timerSchema) (hid : 0 < id) :
    (∀ d s e stat nm, findRow st id = some (id, timerCells d s e stat nm) →
      stat ≠ PAUSED → resumeTimer st id now = .error .assertionError) ∧
    (∀ d s e nm, findRow st id = some (id, timerCells d s e PAUSED nm) →
      d < 0 → resumeTimer st id now = .error .assertionError ∧
        ∀ m, resumeTimer st id now ≠ .error (.valueError m)) ∧
    (∀ d nm, findRow st id = some (id, timerCells d NOT_SET NOT_SET PAUSED nm) →
      0 ≤ d → resumeTimer st id now = .ok (resumedStore st id d now) ∧
        findRow (resumedStore st id d now) id =
          some (id, timerCells d now (now + d) RUNNING nm)) := by
  refine ⟨?_, ?_, ?_⟩
  · intro d s e stat nm hfind hstat
    exact resumeTimer_not_paused st id d s e now stat nm hsch hid hfind hstat
  · intro d s e nm hfind hd
    have h1 := resumeTimer_neg_dur st id d s e now nm hsch hid hfind hd
    refine ⟨h1, ?_⟩
    intro m hm
    rw [h1] at hm
    simp at hm
  · intro d nm hfind hd
    exact ⟨resumeTimer_ok st id d now nm hsch hid hfind hd,
      findRow_resumedStore st id d now nm hfind⟩

/-- C5 witness: resuming the concrete paused timer at instant 50. -/
theorem c5_resume_behavior_witness :
    demoPaused.schema = timerSchema ∧ (0 : Int) < 1 ∧
    resumeTimer demoPaused 1 50 = .ok (resumedStore demoPaused 1 3 50) := by
  have h := (c5_resume_behavior demoPaused 1 50 rfl (by norm_num)).2.2
    3 "t1" rfl (by norm_num)
  exact ⟨rfl, by norm_num, h.1⟩

/-- C5 counterexample: on a paused timer with negative stored duration
(the state an overdue pause leaves behind), resume raises
`AssertionError`, not the `ValueError` that `InvalidArgument` denotes. -/
theorem c5_invalidargument_counterexample :
    resumeTimer demoOverdue 1 0 = .error .assertionError ∧
    ∀ m, resumeTimer demoOverdue 1 0 ≠ .error (.valueError m) := by
  have h : resumeTimer demoOverdue 1 0 = .error .assertionError := by rfl
  refine ⟨h, ?_⟩
  intro m hm
  rw [h] at hm
  simp at hm

/-- C7: immediately after a successful create the new record satisfies
`end_time - duration = start_time` with status RUNNING and a fresh
`start_time = now`; immediately after pause the record has both
timestamps NOT_SET, status PAUSED and duration equal to the previous
`end_time` minus the pause instant (possibly non-positive when overdue);
resume re-establishes the RUNNING relation with a fresh start time. -/
theorem c7_lifecycle_invariants (st1 : Store) (name : String) (dur : Int)
    (now1 : ℚ) (st2 : Store) (id2 : Int) (d2 s2 e2 now2 : ℚ) (nm2 : String)
    (st3 : Store) (id3 : Int) (d3 now3 : ℚ) (nm3 : String) :
    (st1.schema = timerSchema → wfStore st1 = true → 0 < dur → name ≠ "" →
      name.length ≤ 100 →
      createTimer st1 name dur now1 =
        .ok (createdStore st1 name dur now1, st1.nextId) ∧
      ∃ d0 s0 e0, findRow (createdStore st1 name dur now1) st1.nextId =
        some (st1.nextId, timerCells d0 s0 e0 RUNNING name) ∧
        e0 - d0 = s0 ∧ s0 = now1) ∧
    (st2.schema = timerSchema → 0 < id2 →
      findRow st2 id2 = some (id2, timerCells d2 s2 e2 RUNNING nm2) →
      e2 - d2 = s2 →
      pauseTimer st2 id2 now2 = .ok (pausedStore st2 id2 e2 now2) ∧
      findRow (pausedStore st2 id2 e2 now2) id2 =
        some (id2, timerCells (e2 - now2) NOT_SET NOT_SET PAUSED nm2)) ∧
    (st3.schema = timerSchema → 0 < id3 →
      findRow st3 id3 = some (id3, timerCells d3 NOT_SET NOT_SET PAUSED nm3) →
      0 ≤ d3 →
      resumeTimer st3 id3 now3 = .ok (resumedStore st3 id3 d3 now3) ∧
      findRow (resumedStore st3 id3 d3 now3) id3 =
        some (id3, timerCells d3 now3 (now3 + d3) RUNNING nm3) ∧
      (now3 + d3) - d3 = now3) := by
  refine ⟨?_, ?_, ?_⟩
  · intro hsch hwf hd hn hl
    refine ⟨createTimer_ok st1 name dur now1 hsch hd hn hl,
      (dur : ℚ), now1, now1 + (dur : ℚ),
      findRow_createdStore st1 name dur now1 hwf, by ring, rfl⟩
  · intro hsch hid hfind hinv
    exact ⟨pauseTimer_eval st2 id2 d2 s2 e2 now2 nm2 hsch hid hfind hinv,
      findRow_pausedStore st2 id2 d2 s2 e2 now2 nm2 hfind⟩
  · intro hsch hid hfind hd
    exact ⟨resumeTimer_ok st3 id3 d3 now3 nm3 hsch hid hfind hd,
      findRow_resumedStore st3 id3 d3 now3 nm3 hfind, by ring⟩

/-- C7 witness: create on a fresh store, pause the concrete running
timer, resume the concrete paused timer. -/
theorem c7_lifecycle_invariants_witness :
    createTimer (mkStore timerSchema) "t1" 5 100 =
      .ok (createdStore (mkStore timerSchema) "t1" 5 100, 1) ∧
    pauseTimer demoRun 1 102 = .ok (pausedStore demoRun 1 105 102) ∧
    findRow (pausedStore demoRun 1 105 102) 1 =
      some (1, timerCells 3 NOT_SET NOT_SET PAUSED "t1") ∧
    resumeTimer demoPaused 1 50 = .ok (resumedStore demoPaused 1 3 50) := by
  have h := c7_lifecycle_invariants (mkStore timerSchema) "t1" 5 100
    demoRun 1 5 100 105 102 "t1" demoPaused 1 3 50 "t1"
  have h1 := h.1 rfl (by decide) (by norm_num) (by decide) (by decide)
  have h2 := h.2.1 rfl (by norm_num) rfl (by norm_num)
  have h3 := h.2.2 rfl (by norm_num) rfl (by norm_num)
  refine ⟨h1.1, h2.1, ?_, h3.1⟩
  have := h2.2
  rw [show (105 : ℚ) - 102 = 3 by norm_num] at this
  exact this

/-- C9: on a column declared `int`, a Python boolean passes the
`isinstance` check of `_encode_value` (bool is a subclass of int), is
bound by the sqlite driver as 0/1, and `set_attr` succeeds without a
`TypeError`, storing the 0/1 integer cell. -/
theorem c9_bool_for_int_column (st : Store) (attr : String) (b : Bool)
    (id : Int) (row : Int × List SqlVal)
    (hty : validateAttr st attr = .ok .tInt)
    (hfind : findRow st id = some row) :
    isinstanceOf (.vBool b) .tInt = true ∧
    encodeValue st attr (.vBool b) = .ok (.vBool b) ∧
    sqliteBind (.vBool b) = .ok (.sInt (if b then 1 else 0)) ∧
    setAttr st id attr (.vBool b) =
      .ok { st with rows := st.rows.map fun r =>
        if r.1 == id then
          (r.1, r.2.set (attrIdx st.schema attr) (.sInt (if b then 1 else 0)))
        else r } ∧
    ∀ m, setAttr st id attr (.vBool b) ≠ .error (.typeError m) := by
  have hset : setAttr st id attr (.vBool b) =
      .ok { st with rows := st.rows.map fun r =>
        if r.1 == id then
          (r.1, r.2.set (attrIdx st.schema attr) (.sInt (if b then 1 else 0)))
        else r } := by
    simp only [setAttr, encodeValue, hty, hfind, bind, Except.bind]
    rfl
  refine ⟨rfl, ?_, rfl, hset, ?_⟩
  · simp only [encodeValue, hty, bind, Except.bind]
    rfl
  · intro m hm
    rw [hset] at hm
    exact Except.noConfusion hm

/-- C9 witness: storing `True` into the int column of the concrete
store yields the 0/1-encoded cell. -/
theorem c9_bool_for_int_column_witness :
    validateAttr demoFlagStore "flag" = .ok .tInt ∧
    findRow demoFlagStore 1 = some (1, [.sInt 0, .sText "x"]) ∧
    setAttr demoFlagStore 1 "flag" (.vBool true) =
      .ok { demoFlagStore with rows := demoFlagStore.rows.map fun r =>
        if r.1 == 1 then
          (r.1, r.2.set (attrIdx demoFlagStore.schema "flag") (.sInt 1))
        else r } := by
  have h := c9_bool_for_int_column demoFlagStore "flag" true 1
    (1, [.sInt 0, .sText "x"]) rfl rfl
  exact ⟨rfl, rfl, h.2.2.2.1⟩

lemma mapM_ok_of_forall {α β : Type} (f : α → Except PyErr β) :
    ∀ l : List α, (∀ a ∈ l, ∃ b, f a = .ok b) →
      ∃ out : List β, l.mapM f = .ok out ∧ out.length = l.length ∧
        ∀ i, ∀ h : i < l.length, ∀ h2 : i < out.length,
          f (l.get ⟨i, h⟩) = .ok (out.get ⟨i, h2⟩) := by
  intro l
  induction l with
  | nil =>
    intro _
    refine ⟨[], ?_, rfl, ?_⟩
    · rw [List.mapM_nil]
      rfl
    · intro i h h2
      exact absurd h (by simp)
  | cons a l ih =>
    intro hall
    obtain ⟨b, hb⟩ := hall a (List.mem_cons_self a l)
    obtain ⟨out, hout, hlen, hget⟩ :=
      ih (fun x hx => hall x (List.mem_cons_of_mem a hx))
    refine ⟨b :: out, ?_, by simp [hlen], ?_⟩
    · rw [List.mapM_cons]
      simp only [hb, hout, bind, Except.bind, pure]
      rfl
    · intro i h h2
      cases i with
      | zero => simpa using hb
      | succ j =>
        have hj : j < l.length := by simpa using h
        have hj2 : j < out.length := by simpa using h2
        simpa using hget j hj hj2

lemma lookup_of_mem_nodup : ∀ (l : Schema) (p : String × PyType),
    (l.map Prod.fst).Nodup → p ∈ l → List.lookup p.1 l = some p.2 := by
  intro l
  induction l with
  | nil =>
    intro p _ hp
    exact absurd hp (List.not_mem_nil p)
  | cons a l ih =>
    intro p hnd hp
    rw [List.map_cons, List.nodup_cons] at hnd
    rcases List.mem_cons.mp hp with h | h
    · subst h
      obtain ⟨k, v⟩ := p
      simp [List.lookup]
    · obtain ⟨k, v⟩ := a
      have hne : p.1 ≠ k := by
        intro he
        have hmem : p.1 ∈ l.map Prod.fst := List.mem_map_of_mem Prod.fst h
        exact hnd.1 (by rw [← he]; exact hmem)
      simp only [List.lookup]
      rw [show (p.1 == k) = false by simpa using hne]
      exact ih p hnd.2 h

lemma validateAttr_of_mem (st : Store) (p : String × PyType)
    (hnd : (st.schema.map Prod.fst).Nodup) (hp : p ∈ st.schema) :
    validateAttr st p.1 = .ok p.2 := by
  simp only [validateAttr]
  rw [lookup_of_mem_nodup st.schema p hnd hp]

lemma findIdx_of_nodup : ∀ (l : Schema) (i : Nat), ∀ h : i < l.length,
    (l.map Prod.fst).Nodup →
    l.findIdx (fun p => p.1 == l[i].1) = i := by
  intro l
  induction l with
  | nil =>
    intro i h
    exact absurd h (by simp)
  | cons a l ih =>
    intro i h hnd
    rw [List.map_cons, List.nodup_cons] at hnd
    cases i with
    | zero =>
      rw [List.findIdx_cons]
      simp
    | succ j =>
      have hj : j < l.length := by simpa using h
      have hget : (a :: l)[j + 1] = l[j] := List.getElem_cons_succ a l j h
      rw [hget, List.findIdx_cons]
      have hne : (a.1 == l[j].1) = false := by
        have hmem : l[j].1 ∈ l.map Prod.fst :=
          List.mem_map_of_mem Prod.fst (List.getElem_mem hj)
        have : a.1 ≠ l[j].1 := by
          intro he
          exact hnd.1 (by rw [he]; exact hmem)
        simpa using this
      rw [hne]
      simp [ih j hj hnd.2]

lemma findRow_snoc (st : Store) (cells : List SqlVal)
    (hwf : wfStore st = true) :
    List.find? (fun r : Int × List SqlVal => r.1 == st.nextId)
      (st.rows ++ [(st.nextId, cells)]) = some (st.nextId, cells) := by
  have hnone : List.find? (fun r : Int × List SqlVal => r.1 == st.nextId)
      st.rows = none := by
    rw [List.find?_eq_none]
    intro r hr
    have hall : st.rows.all
        (fun r => decide (0 < r.1) && decide (r.1 < st.nextId)) = true := by
      simp only [wfStore, Bool.and_eq_true] at hwf
      exact hwf.1.2
    rw [List.all_eq_true] at hall
    have := hall r hr
    rw [Bool.and_eq_true, decide_eq_true_eq, decide_eq_true_eq] at this
    simp only [beq_iff_eq]
    omega
  rw [List.find?_append, hnone]
  simp [List.find?_cons]

lemma encode_decode_ok (st : Store) (attr : String) (ty : PyType) (v : PyVal)
    (hty : validateAttr st attr = .ok ty)
    (hinst : isinstanceOf v ty = true) (hj : jsonableV v = true) :
    ∃ c, (do
        let encoded ← encodeValue st attr v
        sqliteBind encoded : Except PyErr SqlVal) = .ok c ∧
      ∃ w, decodeValue st attr c = .ok w ∧ pyEq w v = true := by
  cases ty <;> cases v
  case tStr.vStr s =>
    refine ⟨.sText s, ?_, .vStr s, ?_, ?_⟩
    · simp only [encodeValue, hty, bind, Except.bind]
      rfl
    · simp only [decodeValue, hty, bind, Except.bind]
      rfl
    · simp [pyEq]
  case tInt.vInt n =>
    refine ⟨.sInt n, ?_, .vInt n, ?_, ?_⟩
    · simp only [encodeValue, hty, bind, Except.bind]
      rfl
    · simp only [decodeValue, hty, bind, Except.bind]
      rfl
    · simp [pyEq]
  case tInt.vBool b =>
    cases b
    · refine ⟨.sInt 0, ?_, .vInt 0, ?_, ?_⟩
      · simp only [encodeValue, hty, bind, Except.bind]
        rfl
      · simp only [decodeValue, hty, bind, Except.bind]
        rfl
      · decide
    · refine ⟨.sInt 1, ?_, .vInt 1, ?_, ?_⟩
      · simp only [encodeValue, hty, bind, Except.bind]
        rfl
      · simp only [decodeValue, hty, bind, Except.bind]
        rfl
      · decide
  case tBool.vBool b =>
    cases b
    · refine ⟨.sInt 0, ?_, .vBool false, ?_, ?_⟩
      · simp only [encodeValue, hty, bind, Except.bind]
        rfl
      · simp only [decodeValue, hty, bind, Except.bind]
        rfl
      · decide
    · refine ⟨.sInt 1, ?_, .vBool true, ?_, ?_⟩
      · simp only [encodeValue, hty, bind, Except.bind]
        rfl
      · simp only [decodeValue, hty, bind, Except.bind]
        rfl
      · decide
  case tFloat.vFloat q =>
    refine ⟨.sReal q, ?_, .vFloat q, ?_, ?_⟩
    · simp only [encodeValue, hty, bind, Except.bind]
      rfl
    · simp only [decodeValue, hty, bind, Except.bind]
      rfl
    · simp [pyEq]
  case tList.vList xs =>
    have hl : loads (dumps (.vList xs)) = some (.vList xs) := loads_dumps _ hj
    refine ⟨.sText (dumps (.vList xs)), ?_, .vList xs, ?_, ?_⟩
    · simp only [encodeValue, hty, bind, Except.bind]
      rfl
    · have hstep : decodeValue st attr (.sText (dumps (.vList xs))) =
          (match loads (dumps (.vList xs)) with
           | some w => pure w
           | none => throw (.valueError "invalid json")) := by
        simp only [decodeValue, hty, bind, Except.bind]
        rfl
      rw [hstep, hl]
      rfl
    · simp [pyEq]
  case tDict.vDict kvs =>
    have hl : loads (dumps (.vDict kvs)) = some (.vDict kvs) := loads_dumps _ hj
    refine ⟨.sText (dumps (.vDict kvs)), ?_, .vDict kvs, ?_, ?_⟩
    · simp only [encodeValue, hty, bind, Except.bind]
      rfl
    · have hstep : decodeValue st attr (.sText (dumps (.vDict kvs))) =
          (match loads (dumps (.vDict kvs)) with
           | some w => pure w
           | none => throw (.valueError "invalid json")) := by
        simp only [decodeValue, hty, bind, Except.bind]
        rfl
      rw [hstep, hl]
      rfl
    · simp [pyEq]
  all_goals exact absurd hinst (by simp [isinstanceOf])

/-- C1: for every record whose key set equals the schema and whose values
are instances of their declared types (booleans and JSON-serialisable
structured values included), `add_item` succeeds returning the fresh id,
and `get_attr` on that id returns, for every schema attribute, a value
Python-equal to the originally supplied one. -/
theorem c1_insert_get_roundtrip (st : Store) (rec : List (String × PyVal))
    (hwf : wfStore st = true) (hkeys : keysMatch st rec = true)
    (hvals : ∀ p ∈ st.schema, ∃ v, rec.lookup p.1 = some v ∧
      isinstanceOf v p.2 = true ∧ jsonableV v = true) :
    ∃ st2, addItem st rec = .ok (st2, st.nextId) ∧
      ∀ p ∈ st.schema, ∃ v w, rec.lookup p.1 = some v ∧
        getAttr st2 st.nextId p.1 = .ok w ∧ pyEq w v = true := by
  have hnd : (st.schema.map Prod.fst).Nodup := by
    simp only [wfStore, Bool.and_eq_true] at hwf
    exact of_decide_eq_true hwf.1.1
  have hstep : ∀ p ∈ st.schema, ∃ c,
      (fun p : String × PyType => do
        let encoded ← encodeValue st p.1 ((rec.lookup p.1).getD .vNone)
        sqliteBind encoded) p = .ok c := by
    intro p hp
    obtain ⟨v, hv, hinst, hj⟩ := hvals p hp
    have hty := validateAttr_of_mem st p hnd hp
    obtain ⟨c, hc, -⟩ := encode_decode_ok st p.1 p.2 v hty hinst hj
    refine ⟨c, ?_⟩
    show (do
      let encoded ← encodeValue st p.1 ((rec.lookup p.1).getD .vNone)
      sqliteBind encoded : Except PyErr SqlVal) = .ok c
    rw [hv]
    exact hc
  obtain ⟨cells, hcells, hlen, hget⟩ := mapM_ok_of_forall
    (fun p : String × PyType => do
      let encoded ← encodeValue st p.1 ((rec.lookup p.1).getD .vNone)
      sqliteBind encoded)
    st.schema hstep
  refine ⟨Store.mk st.schema (st.nextId + 1)
    (st.rows ++ [(st.nextId, cells)]), ?_, ?_⟩
  · rw [addItem, hkeys, if_neg (show ¬(true = false) by simp), hcells]
    rfl
  · intro p hp
    obtain ⟨v, hv, hinst, hj⟩ := hvals p hp
    have hty := validateAttr_of_mem st p hnd hp
    obtain ⟨i, hi, hip⟩ := List.getElem_of_mem hp
    have hi2 : i < cells.length := by rw [hlen]; exact hi
    have hidx : attrIdx st.schema p.1 = i := by
      rw [attrIdx]
      have hf := findIdx_of_nodup st.schema i hi hnd
      rw [hip] at hf
      exact hf
    have hcell : (do
        let encoded ← encodeValue st p.1 v
        sqliteBind encoded : Except PyErr SqlVal) = .ok (cells.get ⟨i, hi2⟩) := by
      have h0 := hget i hi hi2
      have hgp : st.schema.get ⟨i, hi⟩ = p := hip
      rw [hgp, hv] at h0
      exact h0
    obtain ⟨c, hc, w, hw, hpe⟩ := encode_decode_ok st p.1 p.2 v hty hinst hj
    have hceq : cells.get ⟨i, hi2⟩ = c := Except.ok.inj (hcell.symm.trans hc)
    have hty2 : validateAttr (Store.mk st.schema (st.nextId + 1)
        (st.rows ++ [(st.nextId, cells)])) p.1 = .ok p.2 := hty
    have hfr : findRow (Store.mk st.schema (st.nextId + 1)
        (st.rows ++ [(st.nextId, cells)])) st.nextId =
        some (st.nextId, cells) := findRow_snoc st cells hwf
    refine ⟨v, w, hv, ?_, hpe⟩
    simp only [getAttr, hty2, hfr, bind, Except.bind]
    have hgd : cells.getD (attrIdx st.schema p.1) .sNull = c := by
      rw [hidx, List.getD_eq_getElem cells .sNull hi2]
      rw [← hceq]
      rfl
    show decodeValue _ p.1 (cells.getD (attrIdx st.schema p.1) .sNull) = .ok w
    rw [hgd]
    exact hw

/-- C1 witness: inserting the concrete record (with a boolean in the int
column, a float, a list and a dict) into a fresh store over `richSchema`
round-trips every attribute. -/
theorem c1_insert_get_roundtrip_witness :
    wfStore (mkStore richSchema) = true ∧
    keysMatch (mkStore richSchema) richRec = true ∧
    ∃ st2, addItem (mkStore richSchema) richRec = .ok (st2, 1) ∧
      ∀ p ∈ (mkStore richSchema).schema, ∃ v w,
        richRec.lookup p.1 = some v ∧
        getAttr st2 1 p.1 = .ok w ∧ pyEq w v = true := by
  refine ⟨by decide, by decide, ?_⟩
  have hvals : ∀ p ∈ (mkStore richSchema).schema, ∃ v,
      richRec.lookup p.1 = some v ∧ isinstanceOf v p.2 = true ∧
      jsonableV v = true := by
    intro p hp
    simp only [mkStore, richSchema, List.mem_cons, List.not_mem_nil,
      or_false] at hp
    rcases hp with rfl | rfl | rfl | rfl | rfl | rfl
    · exact ⟨.vStr "hello", rfl, rfl, by decide⟩
    · exact ⟨.vBool true, rfl, rfl, rfl⟩
    · exact ⟨.vBool false, rfl, rfl, rfl⟩
    · refine ⟨.vFloat (3/2), rfl, rfl, ?_⟩
      simp only [jsonableV]
      rw [show ((3:ℚ)/2).den = 2 by norm_num]
      decide
    · exact ⟨.vList (.cons (.vInt 1) (.cons (.vStr "a") .nil)), rfl, rfl,
        by decide⟩
    · exact ⟨.vDict (.cons "k" (.vBool true) .nil), rfl, rfl, by decide⟩
  exact c1_insert_get_roundtrip (mkStore richSchema) richRec (by decide)
    (by decide) hvals

lemma rowLE_false_eq (numeric : Bool) (idx : Nat) (a b : Int × List SqlVal) :
    rowLE numeric idx false a b =
      decide (sortKeyQ numeric (a.2.getD idx .sNull) ≤
        sortKeyQ numeric (b.2.getD idx .sNull)) := rfl

lemma rowLE_true_eq (numeric : Bool) (idx : Nat) (a b : Int × List SqlVal) :
    rowLE numeric idx true a b =
      decide (sortKeyQ numeric (b.2.getD idx .sNull) ≤
        sortKeyQ numeric (a.2.getD idx .sNull)) := rfl

lemma rowLE_trans (numeric : Bool) (idx : Nat) (largest : Bool) :
    ∀ a b c, rowLE numeric idx largest a b = true →
      rowLE numeric idx largest b c = true →
      rowLE numeric idx largest a c = true := by
  intro a b c hab hbc
  cases largest
  · rw [rowLE_false_eq, decide_eq_true_eq] at hab hbc ⊢
    exact le_trans hab hbc
  · rw [rowLE_true_eq, decide_eq_true_eq] at hab hbc ⊢
    exact le_trans hbc hab

lemma rowLE_total (numeric : Bool) (idx : Nat) (largest : Bool) :
    ∀ a b, (rowLE numeric idx largest a b ||
      rowLE numeric idx largest b a) = true := by
  intro a b
  cases largest
  · rw [Bool.or_eq_true, rowLE_false_eq, rowLE_false_eq, decide_eq_true_eq,
      decide_eq_true_eq]
    exact le_total _ _
  · rw [Bool.or_eq_true, rowLE_true_eq, rowLE_true_eq, decide_eq_true_eq,
      decide_eq_true_eq]
    exact le_total _ _

lemma topn_pipeline (rows : List (Int × List SqlVal)) (numeric : Bool)
    (idx : Nat) (largest : Bool) (efs : List (Nat × SqlVal)) (m : Nat) :
    ∃ out : List (Int × List SqlVal),
      ((rows.filter (rowMatches efs)).mergeSort
        (rowLE numeric idx largest)).take m = out ∧
      out.length ≤ m ∧
      (∀ r ∈ out, r ∈ rows ∧ rowMatches efs r = true) ∧
      out.Pairwise (fun a b => rowLE numeric idx largest a b = true) ∧
      ((rows.filter (rowMatches efs)).length ≤ m →
        out.Perm (rows.filter (rowMatches efs))) := by
  refine ⟨_, rfl, ?_, ?_, ?_, ?_⟩
  · simp only [List.length_take]
    exact min_le_left _ _
  · intro r hr
    have h1 : r ∈ (rows.filter (rowMatches efs)).mergeSort
        (rowLE numeric idx largest) := List.take_subset m _ hr
    have h2 : r ∈ rows.filter (rowMatches efs) :=
      (List.Perm.mem_iff (List.mergeSort_perm _ _)).mp h1
    exact ⟨(List.mem_filter.mp h2).1, (List.mem_filter.mp h2).2⟩
  · exact (List.sorted_mergeSort (rowLE_trans numeric idx largest)
      (rowLE_total numeric idx largest) _).sublist (List.take_sublist _ _)
  · intro hle
    have hlen2 : ((rows.filter (rowMatches efs)).mergeSort
        (rowLE numeric idx largest)).length =
        (rows.filter (rowMatches efs)).length :=
      (List.mergeSort_perm _ _).length_eq
    rw [List.take_of_length_le (by rw [hlen2]; exact hle)]
    exact List.mergeSort_perm _ _

lemma topNByAttr_red (st : Store) (attr : String) (ty : PyType) (n : Int)
    (largest : Bool) (filt : List (String × PyVal))
    (efs : List (Nat × SqlVal)) (numeric : Bool)
    (hty : validateAttr st attr = .ok ty)
    (hcase : if numeric = true then ty = .tInt ∨ ty = .tFloat
      else ty = .tStr ∨ ty = .tList ∨ ty = .tDict)
    (hf : encodeFilter st filt = .ok efs) (hn : 0 ≤ n) :
    topNByAttr st attr n largest filt =
      .ok ((((st.rows.filter (rowMatches efs)).mergeSort
        (rowLE numeric (attrIdx st.schema attr) largest)).take n.toNat).map
          Prod.fst) := by
  cases numeric
  · rw [if_neg (show ¬(false = true) by simp)] at hcase
    rcases hcase with rfl | rfl | rfl
    · rw [topNByAttr, hty]
      simp only [bind, Except.bind]
      rw [if_neg (by simp), if_pos (by simp)]
      simp only [pure, Except.pure, Except.bind]
      rw [hf]
      simp only [Except.bind]
      rw [if_neg (show ¬(n < 0) by omega)]
    · rw [topNByAttr, hty]
      simp only [bind, Except.bind]
      rw [if_neg (by simp), if_pos (by simp)]
      simp only [pure, Except.pure, Except.bind]
      rw [hf]
      simp only [Except.bind]
      rw [if_neg (show ¬(n < 0) by omega)]
    · rw [topNByAttr, hty]
      simp only [bind, Except.bind]
      rw [if_neg (by simp), if_pos (by simp)]
      simp only [pure, Except.pure, Except.bind]
      rw [hf]
      simp only [Except.bind]
      rw [if_neg (show ¬(n < 0) by omega)]
  · rw [if_pos rfl] at hcase
    rcases hcase with rfl | rfl
    · rw [topNByAttr, hty]
      simp only [bind, Except.bind]
      rw [if_pos (by simp)]
      simp only [pure, Except.pure, Except.bind]
      rw [hf]
      simp only [Except.bind]
      rw [if_neg (show ¬(n < 0) by omega)]
    · rw [topNByAttr, hty]
      simp only [bind, Except.bind]
      rw [if_pos (by simp)]
      simp only [pure, Except.pure, Except.bind]
      rw [hf]
      simp only [Except.bind]
      rw [if_neg (show ¬(n < 0) by omega)]

/-- C6: `top_n_by_attr(attr, n, largest, filter)` raises `TypeError` (the
spec UnsupportedSortType) for a boolean sort column; otherwise it returns
at most `n` ids of rows matching the equality filter, ordered by the
attribute value for int/float columns and by the stored-text LENGTH for
str/list/dict columns, descending or ascending as requested, and an `n`
at least the number of matching rows yields exactly the matching rows in
that order. -/
theorem c6_topn_order (st : Store) (attr : String) (ty : PyType) (n : Int)
    (largest : Bool) (filt : List (String × PyVal))
    (efs : List (Nat × SqlVal))
    (hty : validateAttr st attr = .ok ty) :
    (ty = .tBool → topNByAttr st attr n largest filt =
      .error (.typeError ("Unsupported type for sorting: " ++
        "must be int, float, str, list, or dict."))) ∧
    (∀ numeric : Bool,
      (if numeric = true then ty = .tInt ∨ ty = .tFloat
       else ty = .tStr ∨ ty = .tList ∨ ty = .tDict) →
      encodeFilter st filt = .ok efs → 0 ≤ n →
      ∃ out : List (Int × List SqlVal),
        topNByAttr st attr n largest filt = .ok (out.map Prod.fst) ∧
        out.length ≤ n.toNat ∧
        (∀ r ∈ out, r ∈ st.rows ∧ rowMatches efs r = true) ∧
        out.Pairwise (fun a b =>
          rowLE numeric (attrIdx st.schema attr) largest a b = true) ∧
        ((st.rows.filter (rowMatches efs)).length ≤ n.toNat →
          out.Perm (st.rows.filter (rowMatches efs)))) := by
  constructor
  · intro hbool
    subst hbool
    rw [topNByAttr, hty]
    simp only [bind, Except.bind]
    rw [if_neg (by simp), if_neg (by simp)]
  · intro numeric hcase hf hn
    have hred := topNByAttr_red st attr ty n largest filt efs numeric hty
      hcase hf hn
    obtain ⟨out, hout, h1, h2, h3, h4⟩ :=
      topn_pipeline st.rows numeric (attrIdx st.schema attr) largest efs
        n.toNat
    refine ⟨out, ?_, h1, h2, h3, h4⟩
    rw [hred, hout]

/-- C6 witness: the concrete three-row store sorted on the int column
descending with limit 2 and an empty filter. -/
theorem c6_topn_order_witness :
    validateAttr demoTopN "p" = .ok .tInt ∧
    encodeFilter demoTopN [] = .ok [] ∧ (0 : Int) ≤ 2 ∧
    ∃ out : List (Int × List SqlVal),
      topNByAttr demoTopN "p" 2 true [] = .ok (out.map Prod.fst) ∧
      out.length ≤ (2 : Int).toNat ∧
      (∀ r ∈ out, r ∈ demoTopN.rows ∧ rowMatches [] r = true) ∧
      out.Pairwise (fun a b =>
        rowLE true (attrIdx demoTopN.schema "p") true a b = true) ∧
      ((demoTopN.rows.filter (rowMatches [])).length ≤ (2 : Int).toNat →
        out.Perm (demoTopN.rows.filter (rowMatches []))) := by
  refine ⟨rfl, rfl, by norm_num, ?_⟩
  exact (c6_topn_order demoTopN "p" .tInt 2 true [] [] rfl).2 true
    (Or.inl rfl) rfl (by norm_num)

end PyTimer
